import Mathlib

/-!
Verification of the Stichotrope profiling engine's specified behaviour.

The package distribution in this repository carries only the test-suite and an
`__init__.py` with version metadata; the engine module itself
(`stichotrope/profiler.py` / `stichotrope/timing.py`, referenced by the tests) is
not part of the checked-in sources.  Every definition below therefore carries a
doc comment starting `Modelled from the spec:` and embeds the component as the
specification (spec.md) describes it, with the interface shapes pinned down by
the test files (`test_v0_1_0.py`, `test_v0_2_0.py`, `tests/unit/*`,
`tests/integration/*`).

Concurrency is modelled operationally: the spec makes every shared-structure
operation atomic (the call-site cache and registries are lock-protected, the
per-block 4-field update is required to be effectively atomic, and per-thread
tables are single-writer), so an arbitrary preemptive interleaving of threads
is an arbitrary sequence of these atomic state transitions.  Theorems quantify
over all such sequences.
-/

namespace Stichotrope

/-- Modelled from the spec: `ProfileBlock` (spec section 3, "Block") — one
instrumented region's statistics: name, source file, source line, then
`hit_count`, `total_time_ns`, `min_time_ns`, `max_time_ns` counters.  The class
itself (`stichotrope.profiler.ProfileBlock`) is missing from the sources; field
shape follows spec section 3 and `test_v0_1_0.py`. -/
structure ProfileBlock where
  name : String
  file : String
  line : Nat
  hit_count : Nat
  total_time_ns : Nat
  min_time_ns : Nat
  max_time_ns : Nat
deriving DecidableEq, Repr

/-- Modelled from the spec: a freshly registered block has zero statistics. -/
def mkBlock (name file : String) (line : Nat) : ProfileBlock :=
  ⟨name, file, line, 0, 0, 0, 0⟩

/-- Modelled from the spec (section 4.2): `record_time` increments `hit_count`,
adds to `total_time_ns` and updates min/max via comparison; the first recording
initializes the minimum (a zero initial `min_time_ns` is never treated as a
valid minimum). -/
def ProfileBlock.record_time (b : ProfileBlock) (d : Nat) : ProfileBlock :=
  { b with
    hit_count := b.hit_count + 1
    total_time_ns := b.total_time_ns + d
    min_time_ns := if b.hit_count = 0 then d else min b.min_time_ns d
    max_time_ns := max b.max_time_ns d }

/-- Modelled from the spec (section 4.4): combining one thread's block into the
accumulated block of the sequential merge.  A thread block with zero hits
contributes nothing; the first contributing thread supplies the metadata and
statistics wholesale; otherwise `hit_count` and `total_time_ns` add and min/max
combine via comparison. -/
def merge_block (acc t : ProfileBlock) : ProfileBlock :=
  if t.hit_count = 0 then acc
  else if acc.hit_count = 0 then t
  else
    { acc with
      hit_count := acc.hit_count + t.hit_count
      total_time_ns := acc.total_time_ns + t.total_time_ns
      min_time_ns := min acc.min_time_ns t.min_time_ns
      max_time_ns := max acc.max_time_ns t.max_time_ns }

/-- Association-list lookup (first binding wins); the embedding's stand-in for
the Python dictionaries used by the engine. -/
def alookup {κ α : Type} [DecidableEq κ] : List (κ × α) → κ → Option α
  | [], _ => none
  | (k, v) :: rest, q => if q = k then some v else alookup rest q

/-- Association-list update: replace the binding of the key if present,
otherwise append the new binding at the end (Python dict insertion order). -/
def aset {κ α : Type} [DecidableEq κ] : List (κ × α) → κ → α → List (κ × α)
  | [], k, v => [(k, v)]
  | (k0, v0) :: rest, k, v =>
    if k = k0 then (k, v) :: rest else (k0, v0) :: aset rest k v

/-- Modelled from the spec (section 3, "Call-Site Key"): the tuple
(track index, source file, source line, declared block name) identifying one
instrumentation point. -/
structure CallSite where
  track : Nat
  file : String
  line : Nat
  name : String
deriving DecidableEq, Repr

/-- Block metadata: (name, file, line). -/
abbrev BlockMeta := String × String × Nat

/-- A per-thread (or merged) table of blocks keyed by (track index, block index). -/
abbrev ThreadTable := List ((Nat × Nat) × ProfileBlock)

/-- Modelled from the spec (section 3, "Profiler"): name, instance `started`
gate, track names, per-track enabled flags (default enabled), the registered
blocks keyed by (track index, block index) with their metadata, the per-track
next free block index, and the registry mapping thread identity to that
thread's private block table (`_all_thread_data` in the tests). -/
structure Profiler where
  name : String
  started : Bool
  track_names : List (Nat × String)
  track_enabled : List (Nat × Bool)
  blocks : List ((Nat × Nat) × BlockMeta)
  next_idx : List (Nat × Nat)
  threads : List (Nat × ThreadTable)
deriving DecidableEq, Repr

/-- Modelled from the spec: a freshly constructed profiler is started, has no
tracks, blocks or thread data. -/
def mkProfiler (name : String) : Profiler :=
  ⟨name, true, [], [], [], [], []⟩

/-- Modelled from the spec (section 4.3, gate 2): every track defaults to
enabled, including tracks not yet explicitly named. -/
def Profiler.is_track_enabled (p : Profiler) (t : Nat) : Bool :=
  (alookup p.track_enabled t).getD true

/-- Modelled from the spec (section 6): set the per-track enabled flag. -/
def Profiler.set_track_enabled (p : Profiler) (t : Nat) (e : Bool) : Profiler :=
  { p with track_enabled := aset p.track_enabled t e }

/-- Modelled from the spec (section 6): set a track's display name. -/
def Profiler.set_track_name (p : Profiler) (t : Nat) (n : String) : Profiler :=
  { p with track_names := aset p.track_names t n }

/-- Modelled from the spec (section 6): `start` sets the instance gate. -/
def Profiler.start (p : Profiler) : Profiler := { p with started := true }

/-- Modelled from the spec (section 6): `stop` clears the instance gate. -/
def Profiler.stop (p : Profiler) : Profiler := { p with started := false }

/-- Modelled from the spec (section 4.1): allocate a new block index within the
target track and register the block's metadata under (track, index). -/
def register_block (p : Profiler) (site : CallSite) : Nat × Profiler :=
  let idx := (alookup p.next_idx site.track).getD 0
  (idx,
    { p with
      blocks := aset p.blocks (site.track, idx) (site.name, site.file, site.line)
      next_idx := aset p.next_idx site.track (idx + 1) })

/-- Modelled from the spec (section 4.2): update one thread's private table at
a key — in-place `record_time` on the existing block, or lazily create the
block (with the registered metadata) on this thread's first recording of it. -/
def table_record (tbl : ThreadTable) (key : Nat × Nat) (meta : BlockMeta)
    (d : Nat) : ThreadTable :=
  match alookup tbl key with
  | some b => aset tbl key (b.record_time d)
  | none => aset tbl key ((mkBlock meta.1 meta.2.1 meta.2.2).record_time d)

/-- Metadata of a registered block, for lazily creating a thread's copy. -/
def block_meta (p : Profiler) (key : Nat × Nat) : BlockMeta :=
  (alookup p.blocks key).getD ("", "", 0)

/-- Modelled from the spec (section 4.2): `record(thread_id, track_idx,
block_idx, duration_ns)` — look up (or lazily create, on first use by this
thread) the thread's private block table, then update the block. -/
def Profiler.record (p : Profiler) (tid track bidx d : Nat) : Profiler :=
  let tbl := (alookup p.threads tid).getD []
  { p with
    threads :=
      aset p.threads tid (table_record tbl (track, bidx) (block_meta p (track, bidx)) d) }

/-- Modelled from the spec (section 2/5): the process-wide state — the global
enable flag, the process-wide call-site cache mapping a call site to its cached
(profiler id, block index), the profiler registry and its next free id. -/
structure Registry where
  global_enabled : Bool
  cache : List (CallSite × (Nat × Nat))
  profilers : List (Nat × Profiler)
  next_pid : Nat
deriving DecidableEq, Repr

/-- Modelled from the spec: process start state — globally enabled, empty
call-site cache, empty profiler registry. -/
def Registry.init : Registry := ⟨true, [], [], 0⟩

/-- Modelled from the spec (section 6): `set_global_enabled`. -/
def set_global_enabled (st : Registry) (e : Bool) : Registry :=
  { st with global_enabled := e }

/-- Modelled from the spec (section 4.5): profiler construction assigns the
next unique id under the registry lock and registers the instance. -/
def new_profiler (st : Registry) (name : String) : Nat × Registry :=
  (st.next_pid,
    { st with
      profilers := aset st.profilers st.next_pid (mkProfiler name)
      next_pid := st.next_pid + 1 })

/-- Apply a function to the registered profiler with the given id (no-op when
the id is unregistered). -/
def upd_profiler (st : Registry) (pid : Nat) (f : Profiler → Profiler) : Registry :=
  match alookup st.profilers pid with
  | none => st
  | some p => { st with profilers := aset st.profilers pid (f p) }

/-- Modelled from the spec (section 4.1): `resolve_or_register` — on cache hit
return the cached (profiler id, block index); on miss (under the cache lock,
after the re-check the lock makes atomic) allocate a new block index in the
target profiler's track, insert the cache entry and return it. -/
def resolve_or_register (st : Registry) (site : CallSite) (pid : Nat) :
    (Nat × Nat) × Registry :=
  match alookup st.cache site with
  | some pb => (pb, st)
  | none =>
    match alookup st.profilers pid with
    | none => ((pid, 0), st)
    | some p =>
      let r := register_block p site
      ((pid, r.1),
        { st with
          profilers := aset st.profilers pid r.2
          cache := aset st.cache site (pid, r.1) })

/-- Modelled from the spec (sections 2, 4.3): one invocation of an instrumented
call site with measured elapsed time `d` by thread `tid`.  The process-wide
gate is consulted first (short-circuiting: when globally disabled nothing is
registered or recorded — `test_global_enable_disable` observes zero tracks);
otherwise the call site is resolved through the cache (registering it on first
execution), and recording happens only when the resolved profiler's track gate
and instance `started` gate also pass. -/
def tracked_call (st : Registry) (pid : Nat) (site : CallSite) (tid d : Nat) :
    Registry :=
  if !st.global_enabled then st
  else
    let r := resolve_or_register st site pid
    match alookup r.2.profilers r.1.1 with
    | none => r.2
    | some p =>
      if p.is_track_enabled site.track && p.started then
        { r.2 with
          profilers := aset r.2.profilers r.1.1 (p.record tid site.track r.1.2 d) }
      else r.2

/-- Modelled from the spec (section 6, `track`): the wrapper always executes the
wrapped work and returns its value; the profiling side effect is
`tracked_call`. -/
def tracked_call_value {α : Type} (st : Registry) (pid : Nat) (site : CallSite)
    (tid d : Nat) (body : α) : α × Registry :=
  (body, tracked_call st pid site tid d)

/-- Modelled from the spec (section 6, `block`): a scoped region takes a start
timestamp `t0` on entry and on exit records the elapsed time `t1 - t0` on all
exit paths — both when the body returns normally and when it exits by a
propagated exception — then propagates the body's outcome. -/
def block_exit {ε α : Type} (st : Registry) (pid : Nat) (site : CallSite)
    (tid t0 t1 : Nat) (body : Except ε α) : Except ε α × Registry :=
  match body with
  | .ok v => (.ok v, tracked_call st pid site tid (t1 - t0))
  | .error e => (.error e, tracked_call st pid site tid (t1 - t0))

/-- Modelled from the spec (section 4.4): the merge's starting point is every
registered block with zero statistics, so a registered-but-never-recorded block
appears in the results with `hit_count = 0` (`test_per_track_enable_disable`). -/
def init_blocks (p : Profiler) : ThreadTable :=
  p.blocks.map (fun km => (km.1, mkBlock km.2.1 km.2.2.1 km.2.2.2))

/-- Modelled from the spec (section 4.4): merge one thread block into the
accumulated table at its key; a thread block with zero hits is skipped
entirely, and the first thread with non-zero hits supplies the block. -/
def merge_step (acc : ThreadTable) (kv : (Nat × Nat) × ProfileBlock) : ThreadTable :=
  match alookup acc kv.1 with
  | some a => aset acc kv.1 (merge_block a kv.2)
  | none => if kv.2.hit_count = 0 then acc else aset acc kv.1 kv.2

/-- Modelled from the spec (section 4.4): merge one thread's table into the
accumulated table, per (track, block) key. -/
def merge_table (acc tbl : ThreadTable) : ThreadTable :=
  tbl.foldl merge_step acc

/-- Modelled from the spec (section 4.4): `get_results` — snapshot the list of
registered per-thread tables, then sequentially merge them, per (track, block),
into a fresh table seeded from the registered blocks. -/
def Profiler.get_results (p : Profiler) : ThreadTable :=
  p.threads.foldl (fun acc t => merge_table acc t.2) (init_blocks p)

/-- The track indices present in a results table (the tests' `results.tracks`). -/
def tracks_of (r : ThreadTable) : List Nat :=
  (r.map (fun kv => kv.1.1)).dedup

/-- Hit count a results table reports at a key (0 when the block is absent). -/
def hit_at (r : ThreadTable) (key : Nat × Nat) : Nat :=
  match alookup r key with
  | none => 0
  | some b => b.hit_count

/-- Total time a results table reports at a key (0 when the block is absent). -/
def total_at (r : ThreadTable) (key : Nat × Nat) : Nat :=
  match alookup r key with
  | none => 0
  | some b => b.total_time_ns

/-- The atomic engine transitions an arbitrary preemptive interleaving of
threads is a sequence of: an instrumented call (resolution plus gated
recording), a per-track gate toggle, the process-wide gate toggle, and the
instance gates. -/
inductive Op where
  | call (site : CallSite) (tid : Nat) (d : Nat)
  | setTrack (t : Nat) (e : Bool)
  | setGlobal (e : Bool)
  | start
  | stop
deriving DecidableEq, Repr

/-- Modelled from the spec: apply one atomic engine transition (all profiler
operations target profiler `pid`). -/
def apply_op (pid : Nat) (st : Registry) : Op → Registry
  | .call site tid d => tracked_call st pid site tid d
  | .setTrack t e => upd_profiler st pid (fun p => p.set_track_enabled t e)
  | .setGlobal e => set_global_enabled st e
  | .start => upd_profiler st pid Profiler.start
  | .stop => upd_profiler st pid Profiler.stop

/-- Run a sequence of atomic engine transitions. -/
def run (pid : Nat) (st : Registry) (ops : List Op) : Registry :=
  ops.foldl (apply_op pid) st

/-- The per-thread fold of `record_time` over a thread's recorded durations. -/
def fold_record (b : ProfileBlock) (ds : List Nat) : ProfileBlock :=
  ds.foldl ProfileBlock.record_time b

/-! ### Association-list laws -/

/-- The keys of an association list. -/
def akeys {κ α : Type} (l : List (κ × α)) : List κ := l.map Prod.fst

/-! ### The per-key view of the sequential merge -/

/-- The per-key effect of merging one thread's (optional) block at a key into
the accumulated (optional) block at that key. -/
def mopt : Option ProfileBlock → Option ProfileBlock → Option ProfileBlock
  | a, none => a
  | some a, some b => some (merge_block a b)
  | none, some b => if b.hit_count = 0 then none else some b

/-! ### Commuting one recording with the sequential merge -/

/-- A block is sound for metadata `m`: it carries `m` and, when it has no hits,
all its counters are zero (never-recorded blocks report zeroes). -/
def BOk (m : BlockMeta) (b : ProfileBlock) : Prop :=
  b.name = m.1 ∧ b.file = m.2.1 ∧ b.line = m.2.2 ∧
    (b.hit_count = 0 →
      b.total_time_ns = 0 ∧ b.min_time_ns = 0 ∧ b.max_time_ns = 0)

/-- Soundness of an optional block. -/
def OOk (m : BlockMeta) : Option ProfileBlock → Prop
  | none => True
  | some b => BOk m b

/-- The per-key effect of one `record_time` on a thread's (optional) block:
record into the existing copy, or into a fresh zeroed copy on first use. -/
def ropt (m : BlockMeta) (d : Nat) : Option ProfileBlock → Option ProfileBlock
  | some b => some (b.record_time d)
  | none => some ((mkBlock m.1 m.2.1 m.2.2).record_time d)

/-- The well-formedness the merge needs from a profiler's thread registry:
every table has distinct keys, and every (optional) per-thread block at any key
carries the registered metadata of that key and zero counters when unhit. -/
def WfT (p : Profiler) : Prop :=
  (∀ t ∈ p.threads, (akeys t.2).Nodup) ∧
    (∀ t ∈ p.threads, ∀ k, OOk (block_meta p k) (alookup t.2 k))

/-- The block the scenario profiler's merged results report at a key. -/
def results_at (st : Registry) (pid : Nat) (k : Nat × Nat) : Option ProfileBlock :=
  match alookup st.profilers pid with
  | none => none
  | some p => alookup p.get_results k

/-- The metadata a call site registers for its block. -/
def smeta (s : CallSite) : BlockMeta := (s.name, s.file, s.line)

/-- The key of the first block a call site's track allocates. -/
def skey (s : CallSite) : Nat × Nat := (s.track, 0)

/-! ### The single-site scenario -/

/-- The warm single-site scenario state: globally enabled, the call site cached
to (profiler 0, block 0), profiler 0 started with no per-track overrides,
exactly this one block registered, and all well-formed thread data confined to
that block's key. -/
def SOne (s : CallSite) (st : Registry) : Prop :=
  st.global_enabled = true ∧
  st.cache = [(s, (0, 0))] ∧
  ∃ p, alookup st.profilers 0 = some p ∧
    p.started = true ∧ p.track_enabled = [] ∧
    p.blocks = [(skey s, smeta s)] ∧
    p.next_idx = [(s.track, 1)] ∧
    WfT p ∧
    (∀ t ∈ p.threads, ∀ q, q ≠ skey s → alookup t.2 q = none)

/-- The call transitions of a list of (thread, duration) recording events
against one call site. -/
def call_ops (s : CallSite) (evs : List (Nat × Nat)) : List Op :=
  evs.map (fun td => Op.call s td.1 td.2)

/-- Folding a sequence of recorded durations into the per-key view. -/
def ropt_fold (m : BlockMeta) (o : Option ProfileBlock) (ds : List Nat) :
    Option ProfileBlock :=
  ds.foldl (fun o d => ropt m d o) o

/-- The scenario's initial state: a fresh registry holding one fresh profiler. -/
def boot (nm : String) : Registry := (new_profiler Registry.init nm).2

/-- Hit count reported by an optional merged block (0 when absent). -/
def ohit : Option ProfileBlock → Nat
  | none => 0
  | some b => b.hit_count

/-- Total time reported by an optional merged block (0 when absent). -/
def ototal : Option ProfileBlock → Nat
  | none => 0
  | some b => b.total_time_ns

/-- The per-thread recording events of a grouped thread list: thread `tid`
performs its recorded durations in order; threads are interleaved arbitrarily
(the per-thread data only depends on the per-thread subsequence, and the run
quantifies over the event order chosen here). -/
def thread_events (tds : List (Nat × List Nat)) : List (Nat × Nat) :=
  (tds.map (fun td => td.2.map (fun dd => (td.1, dd)))).flatten

/-! ### The two-site scenario -/

/-- The warm two-site scenario state: both call sites cached to blocks 0 of
their (distinct) tracks, both blocks registered, per-track enabled flags `E`,
and all thread data confined to the two keys. -/
def STwo (sa sb : CallSite) (E : List (Nat × Bool)) (st : Registry) : Prop :=
  st.global_enabled = true ∧
  st.cache = [(sa, (0, 0)), (sb, (0, 0))] ∧
  ∃ p, alookup st.profilers 0 = some p ∧
    p.started = true ∧ p.track_enabled = E ∧
    p.blocks = [(skey sa, smeta sa), (skey sb, smeta sb)] ∧
    WfT p ∧
    (∀ t ∈ p.threads, ∀ q, q ≠ skey sa → q ≠ skey sb → alookup t.2 q = none)

/-- The operation sequence of the track-toggle scenario: warm both sites, run
phase 1 on both tracks, disable `sb`'s track, run phase 2 on both, re-enable,
run phase 3 on both. -/
def c6_ops (sa sb : CallSite) (tid1 d1 tid2 d2 : Nat)
    (as1 bs1 as2 bs2 as3 bs3 : List (Nat × Nat)) : List Op :=
  Op.call sa tid1 d1 :: Op.call sb tid2 d2 ::
    (call_ops sa as1 ++ call_ops sb bs1 ++ [Op.setTrack sb.track false] ++
      call_ops sa as2 ++ call_ops sb bs2 ++ [Op.setTrack sb.track true] ++
      call_ops sa as3 ++ call_ops sb bs3)

/-! ### The block invariant under recording and merging -/

/-- The blocks reachable by the engine's operations on block statistics,
together with the multiset (as a list) of recorded durations they account for:
a freshly registered block, an in-place `record_time`, and a sequential-merge
combination of two reachable blocks. -/
inductive BlockReach : ProfileBlock → List Nat → Prop where
  | fresh (nme fl : String) (ln : Nat) : BlockReach (mkBlock nme fl ln) []
  | update {b : ProfileBlock} {ds : List Nat} (d : Nat) :
      BlockReach b ds → BlockReach (b.record_time d) (d :: ds)
  | merge {a : ProfileBlock} {as : List Nat} {b : ProfileBlock} {bs : List Nat} :
      BlockReach a as → BlockReach b bs → BlockReach (merge_block a b) (as ++ bs)

/-! ### Block ownership: snapshots are independent copies -/

/-- Modelled from the spec (sections 3/5): the mutable block heap. Per-thread
tables hold addresses into the store; `record` mutates the owning thread's
block in place through its address; `get_results` allocates new cells for the
merged copies (whose contents the pure merge above computes). -/
structure MemState where
  store : List ProfileBlock
  threads : List (Nat × List ((Nat × Nat) × Nat))
deriving DecidableEq, Repr

/-- Modelled from the spec (section 4.2): in-place `record_time` on the block
living at address `a`. -/
def store_write (store : List ProfileBlock) (a d : Nat) : List ProfileBlock :=
  match store[a]? with
  | none => store
  | some b => store.set a (b.record_time d)

/-- Modelled from the spec (section 4.2): `record` writes through the owning
thread's address for the block, allocating the thread's private copy on first
use by that thread. -/
def mrecord (ms : MemState) (tid : Nat) (k : Nat × Nat) (meta : BlockMeta)
    (d : Nat) : MemState :=
  let tbl := (alookup ms.threads tid).getD []
  match alookup tbl k with
  | some a => { ms with store := store_write ms.store a d }
  | none =>
    { store := ms.store ++ [(mkBlock meta.1 meta.2.1 meta.2.2).record_time d]
      threads := aset ms.threads tid (aset tbl k ms.store.length) }

/-- One recording command: thread, block key, block metadata, duration. -/
structure RecCmd where
  tid : Nat
  key : Nat × Nat
  meta : BlockMeta
  dur : Nat
deriving DecidableEq, Repr

/-- Run a sequence of recordings against the block heap. -/
def mrun (ms : MemState) (cs : List RecCmd) : MemState :=
  cs.foldl (fun ms c => mrecord ms c.tid c.key c.meta c.dur) ms

/-- Modelled from the spec (sections 4.4, 5): the aggregator allocates the
merged blocks as new, independently owned copies — fresh cells appended to the
store; the returned snapshot holds their addresses, never a thread's live
block. -/
def msnapshot (ms : MemState) (blocks : List ProfileBlock) : List Nat × MemState :=
  ((List.range blocks.length).map (fun i => ms.store.length + i),
    { ms with store := ms.store ++ blocks })

/-- Every thread-held address points into the store. -/
def WfAddrs (ms : MemState) : Prop :=
  ∀ t ∈ ms.threads, ∀ kv ∈ t.2, kv.2 < ms.store.length

@[simp]
theorem alookup_nil {κ α : Type} [DecidableEq κ] (k : κ) :
    alookup ([] : List (κ × α)) k = none := rfl

@[simp]
theorem alookup_cons_self {κ α : Type} [DecidableEq κ] (k : κ) (v : α) (rest : List (κ × α)) :
    alookup ((k, v) :: rest) k = some v := by simp [alookup]

theorem alookup_cons_ne {κ α : Type} [DecidableEq κ] (k q : κ) (v : α) (rest : List (κ × α))
    (hne : q ≠ k) : alookup ((k, v) :: rest) q = alookup rest q := by simp [alookup, hne]

@[simp]
theorem aset_nil {κ α : Type} [DecidableEq κ] (k : κ) (v : α) :
    aset ([] : List (κ × α)) k v = [(k, v)] := rfl

@[simp]
theorem aset_cons_self {κ α : Type} [DecidableEq κ] (k : κ) (v0 v : α) (rest : List (κ × α)) :
    aset ((k, v0) :: rest) k v = (k, v) :: rest := by simp [aset]

theorem aset_cons_ne {κ α : Type} [DecidableEq κ] (k k0 : κ) (v0 v : α) (rest : List (κ × α))
    (hne : k ≠ k0) : aset ((k0, v0) :: rest) k v = (k0, v0) :: aset rest k v := by
  simp [aset, hne]

theorem alookup_aset_self {κ α : Type} [DecidableEq κ] (l : List (κ × α)) (k : κ) (v : α) :
    alookup (aset l k v) k = some v := by
  induction l with
  | nil => simp [aset, alookup]
  | cons kv rest ih =>
    obtain ⟨k0, v0⟩ := kv
    by_cases h : k = k0
    · subst h
      simp [aset, alookup]
    · simp [aset, alookup, h, ih]

theorem alookup_aset_ne {κ α : Type} [DecidableEq κ] (l : List (κ × α)) (k q : κ) (v : α)
    (hne : q ≠ k) : alookup (aset l k v) q = alookup l q := by
  induction l with
  | nil => simp [aset, alookup, hne]
  | cons kv rest ih =>
    obtain ⟨k0, v0⟩ := kv
    by_cases h : k = k0
    · subst h
      simp [aset, alookup, hne]
    · by_cases h2 : q = k0
      · subst h2
        simp [aset, alookup, h]
      · simp [aset, alookup, h, h2, ih]

theorem aset_self_of_lookup {κ α : Type} [DecidableEq κ] (l : List (κ × α)) (k : κ) (v : α)
    (h : alookup l k = some v) : aset l k v = l := by
  induction l with
  | nil => simp [alookup] at h
  | cons kv rest ih =>
    obtain ⟨k0, v0⟩ := kv
    by_cases hk : k = k0
    · subst hk
      simp [alookup] at h
      simp [aset, h]
    · simp [alookup, hk] at h
      simp [aset, hk, ih h]

theorem alookup_eq_none_of_not_mem {κ α : Type} [DecidableEq κ] (l : List (κ × α)) (k : κ)
    (h : k ∉ akeys l) : alookup l k = none := by
  induction l with
  | nil => simp [alookup]
  | cons kv rest ih =>
    simp [akeys] at h
    push_neg at h
    simp [alookup, h.1, ih (by simp [akeys]; exact h.2)]

theorem akeys_aset_of_lookup {κ α : Type} [DecidableEq κ] (l : List (κ × α)) (k : κ) (v w : α)
    (h : alookup l k = some w) : akeys (aset l k v) = akeys l := by
  induction l with
  | nil => simp [alookup] at h
  | cons kv rest ih =>
    obtain ⟨k0, v0⟩ := kv
    by_cases hk : k = k0
    · subst hk
      simp [aset, akeys]
    · simp [alookup, hk] at h
      simp [aset, hk, akeys] at *
      exact ih h

theorem aset_eq_append_of_lookup_none {κ α : Type} [DecidableEq κ] (l : List (κ × α)) (k : κ)
    (v : α) (h : alookup l k = none) : aset l k v = l ++ [(k, v)] := by
  induction l with
  | nil => simp [aset]
  | cons kv rest ih =>
    obtain ⟨k0, v0⟩ := kv
    by_cases hk : k = k0
    · subst hk
      simp [alookup] at h
    · simp [alookup, hk] at h
      simp [aset, hk, ih h]

theorem alookup_ne_none_of_mem {κ α : Type} [DecidableEq κ] (l : List (κ × α)) (k : κ)
    (h : k ∈ akeys l) : alookup l k ≠ none := by
  induction l with
  | nil => simp [akeys] at h
  | cons kv rest ih =>
    obtain ⟨k0, v0⟩ := kv
    by_cases hk : k = k0
    · subst hk
      simp [alookup]
    · simp [akeys, hk] at h
      simp [alookup, hk]
      exact ih (by simpa [akeys] using h)

theorem nodup_akeys_aset {κ α : Type} [DecidableEq κ] (l : List (κ × α)) (k : κ) (v : α)
    (h : (akeys l).Nodup) : (akeys (aset l k v)).Nodup := by
  cases hl : alookup l k with
  | some w => rw [akeys_aset_of_lookup l k v w hl]; exact h
  | none =>
    rw [aset_eq_append_of_lookup_none l k v hl]
    simp only [akeys, List.map_append, List.map_cons, List.map_nil]
    refine List.Nodup.append h (by simp) ?_
    intro a ha hb
    simp at hb
    subst hb
    exact alookup_ne_none_of_mem l a (by simpa [akeys] using ha) hl

/-! ### Statistics of a single block under recording -/

@[simp]
theorem record_time_hit (b : ProfileBlock) (d : Nat) :
    (b.record_time d).hit_count = b.hit_count + 1 := rfl

@[simp]
theorem record_time_total (b : ProfileBlock) (d : Nat) :
    (b.record_time d).total_time_ns = b.total_time_ns + d := rfl

@[simp]
theorem record_time_name (b : ProfileBlock) (d : Nat) : (b.record_time d).name = b.name := rfl

@[simp]
theorem record_time_file (b : ProfileBlock) (d : Nat) : (b.record_time d).file = b.file := rfl

@[simp]
theorem record_time_line (b : ProfileBlock) (d : Nat) : (b.record_time d).line = b.line := rfl

theorem fold_record_hit (ds : List Nat) (b : ProfileBlock) :
    (fold_record b ds).hit_count = b.hit_count + ds.length := by
  induction ds generalizing b with
  | nil => simp [fold_record]
  | cons d rest ih =>
    simp only [fold_record, List.foldl_cons] at *
    rw [ih]
    simp
    omega

theorem fold_record_total (ds : List Nat) (b : ProfileBlock) :
    (fold_record b ds).total_time_ns = b.total_time_ns + ds.sum := by
  induction ds generalizing b with
  | nil => simp [fold_record]
  | cons d rest ih =>
    simp only [fold_record, List.foldl_cons] at *
    rw [ih]
    simp
    omega

theorem fold_record_min_of_pos (ds : List Nat) (b : ProfileBlock) (h : b.hit_count ≠ 0) :
    (fold_record b ds).min_time_ns = ds.foldl min b.min_time_ns := by
  induction ds generalizing b with
  | nil => simp [fold_record]
  | cons d rest ih =>
    simp only [fold_record, List.foldl_cons] at *
    rw [ih (b.record_time d) (by simp)]
    simp [ProfileBlock.record_time, h]

theorem fold_record_max (ds : List Nat) (b : ProfileBlock) :
    (fold_record b ds).max_time_ns = ds.foldl max b.max_time_ns := by
  induction ds generalizing b with
  | nil => simp [fold_record]
  | cons d rest ih =>
    simp only [fold_record, List.foldl_cons] at *
    rw [ih]
    simp [ProfileBlock.record_time]

theorem fold_record_name (ds : List Nat) (b : ProfileBlock) :
    (fold_record b ds).name = b.name := by
  induction ds generalizing b with
  | nil => rfl
  | cons d rest ih =>
    simp only [fold_record, List.foldl_cons] at *
    rw [ih]
    rfl

theorem foldl_min_mem (ds : List Nat) (d : Nat) : ds.foldl min d ∈ d :: ds := by
  induction ds generalizing d with
  | nil => simp
  | cons e rest ih =>
    simp only [List.foldl_cons]
    rcases List.mem_cons.mp (ih (min d e)) with h3 | h3
    · rw [h3]
      rcases min_choice d e with h4 | h4 <;> rw [h4] <;> simp
    · simp [h3]

theorem foldl_min_le (ds : List Nat) (d : Nat) : ∀ x ∈ d :: ds, ds.foldl min d ≤ x := by
  induction ds generalizing d with
  | nil => simp
  | cons e rest ih =>
    intro x hx
    have hseed : rest.foldl min (min d e) ≤ min d e := ih (min d e) _ (by simp)
    simp only [List.mem_cons] at hx
    rcases hx with rfl | rfl | hx
    · exact le_trans (by simpa using hseed) (min_le_left _ _)
    · exact le_trans (by simpa using hseed) (min_le_right _ _)
    · exact ih (min d e) x (by simp [hx])

theorem foldl_max_mem (ds : List Nat) (d : Nat) : ds.foldl max d ∈ d :: ds := by
  induction ds generalizing d with
  | nil => simp
  | cons e rest ih =>
    simp only [List.foldl_cons]
    rcases List.mem_cons.mp (ih (max d e)) with h3 | h3
    · rw [h3]
      rcases max_choice d e with h4 | h4 <;> rw [h4] <;> simp
    · simp [h3]

theorem foldl_le_max (ds : List Nat) (d : Nat) : ∀ x ∈ d :: ds, x ≤ ds.foldl max d := by
  induction ds generalizing d with
  | nil => simp
  | cons e rest ih =>
    intro x hx
    have hseed : max d e ≤ rest.foldl max (max d e) := ih (max d e) _ (by simp)
    simp only [List.mem_cons] at hx
    rcases hx with rfl | rfl | hx
    · exact le_trans (le_max_left _ _) (by simpa using hseed)
    · exact le_trans (le_max_right _ _) (by simpa using hseed)
    · exact ih (max d e) x (by simp [hx])

@[simp]
theorem mopt_none_right (a : Option ProfileBlock) : mopt a none = a := by
  cases a <;> rfl

theorem alookup_map_snd {κ α β : Type} [DecidableEq κ] (l : List (κ × α)) (g : α → β) (k : κ) :
    alookup (l.map (fun kv => (kv.1, g kv.2))) k = (alookup l k).map g := by
  induction l with
  | nil => simp [alookup]
  | cons kv rest ih =>
    by_cases h : k = kv.1
    · simp [alookup, h]
    · simp [alookup, h, ih]

theorem alookup_merge_table (acc tbl : ThreadTable) (k : Nat × Nat)
    (h : (akeys tbl).Nodup) :
    alookup (merge_table acc tbl) k = mopt (alookup acc k) (alookup tbl k) := by
  induction tbl generalizing acc with
  | nil => simp [merge_table, alookup]
  | cons kv rest ih =>
    obtain ⟨k0, b⟩ := kv
    simp only [akeys, List.map_cons, List.nodup_cons] at h
    have htl : (akeys rest).Nodup := h.2
    have hrw : merge_table acc ((k0, b) :: rest) = merge_table (merge_step acc (k0, b)) rest := by
      simp [merge_table]
    rw [hrw, ih _ htl]
    by_cases hk : k = k0
    · subst hk
      have hrest : alookup rest k = none :=
        alookup_eq_none_of_not_mem rest k (by simpa [akeys] using h.1)
      rw [hrest, mopt_none_right]
      simp only [alookup, if_pos rfl]
      cases hacc : alookup acc k with
      | some a => simp [merge_step, hacc, alookup_aset_self, mopt]
      | none =>
        by_cases hb : b.hit_count = 0
        · simp [merge_step, hacc, hb, mopt]
        · simp [merge_step, hacc, hb, alookup_aset_self, mopt]
    · have hstep : alookup (merge_step acc (k0, b)) k = alookup acc k := by
        cases hacc : alookup acc k0 with
        | some a => simp [merge_step, hacc, alookup_aset_ne _ _ _ _ hk]
        | none =>
          by_cases hb : b.hit_count = 0
          · simp [merge_step, hacc, hb]
          · simp [merge_step, hacc, hb, alookup_aset_ne _ _ _ _ hk]
      rw [hstep]
      simp [alookup, hk]

theorem alookup_foldl_merge (ths : List (Nat × ThreadTable)) (acc : ThreadTable) (k : Nat × Nat)
    (h : ∀ t ∈ ths, (akeys t.2).Nodup) :
    alookup (ths.foldl (fun acc t => merge_table acc t.2) acc) k
      = (ths.map (fun t => alookup t.2 k)).foldl mopt (alookup acc k) := by
  induction ths generalizing acc with
  | nil => simp
  | cons t rest ih =>
    simp only [List.foldl_cons, List.map_cons]
    rw [ih _ (fun u hu => h u (by simp [hu])),
      alookup_merge_table acc t.2 k (h t (by simp))]

/-- The merged-results lookup at a key is the `mopt`-fold of the per-thread
lookups at that key, seeded with the registered block's zeroed copy. -/
theorem alookup_get_results (p : Profiler) (k : Nat × Nat)
    (h : ∀ t ∈ p.threads, (akeys t.2).Nodup) :
    alookup p.get_results k
      = (p.threads.map (fun t => alookup t.2 k)).foldl mopt (alookup (init_blocks p) k) := by
  exact alookup_foldl_merge p.threads (init_blocks p) k h

theorem alookup_init_blocks (p : Profiler) (k : Nat × Nat) :
    alookup (init_blocks p) k
      = (alookup p.blocks k).map (fun m => mkBlock m.1 m.2.1 m.2.2) := by
  simpa [init_blocks] using
    alookup_map_snd p.blocks (fun m => mkBlock m.1 m.2.1 m.2.2) k

theorem BOk_mkBlock (m : BlockMeta) : BOk m (mkBlock m.1 m.2.1 m.2.2) := by
  simp [BOk, mkBlock]

theorem BOk_zero_eq (m : BlockMeta) (b : ProfileBlock) (h : BOk m b)
    (h0 : b.hit_count = 0) : b = mkBlock m.1 m.2.1 m.2.2 := by
  obtain ⟨hn, hf, hl, hz⟩ := h
  obtain ⟨hz1, hz2, hz3⟩ := hz h0
  cases b
  simp_all [mkBlock]

theorem BOk_record (m : BlockMeta) (b : ProfileBlock) (d : Nat) (h : BOk m b) :
    BOk m (b.record_time d) := by
  obtain ⟨hn, hf, hl, _⟩ := h
  refine ⟨hn, hf, hl, fun h0 => ?_⟩
  simp at h0

theorem BOk_merge (m : BlockMeta) (a b : ProfileBlock) (ha : BOk m a) (hb : BOk m b) :
    BOk m (merge_block a b) := by
  by_cases hbh : b.hit_count = 0
  · simpa [merge_block, hbh] using ha
  · by_cases hah : a.hit_count = 0
    · simpa [merge_block, hbh, hah] using hb
    · obtain ⟨hn, hf, hl, _⟩ := ha
      refine ⟨?_, ?_, ?_, fun h0 => ?_⟩ <;>
        simp_all [merge_block, hbh, hah]

theorem merge_comm_left (m : BlockMeta) (a b : ProfileBlock) (d : Nat)
    (ha : BOk m a) (hb : BOk m b) :
    merge_block (a.record_time d) b = (merge_block a b).record_time d := by
  by_cases hbh : b.hit_count = 0
  · simp [merge_block, hbh]
  · by_cases hah : a.hit_count = 0
    · obtain ⟨han, haf, hal, haz⟩ := ha
      obtain ⟨hz1, hz2, hz3⟩ := haz hah
      obtain ⟨hbn, hbf, hbl, _⟩ := hb
      simp [merge_block, ProfileBlock.record_time, hah, hbh, hz1, hz2, hz3,
        han, haf, hal, hbn, hbf, hbl]
      omega
    · simp [merge_block, ProfileBlock.record_time, hah, hbh]
      omega

theorem merge_comm_right (m : BlockMeta) (a b : ProfileBlock) (d : Nat)
    (ha : BOk m a) (hb : BOk m b) :
    merge_block a (b.record_time d) = (merge_block a b).record_time d := by
  by_cases hah : a.hit_count = 0
  · -- a contributes nothing: both sides reduce to recording into b's copy
    have hae : a = mkBlock m.1 m.2.1 m.2.2 := BOk_zero_eq m a ha hah
    by_cases hbh : b.hit_count = 0
    · have hbe : b = mkBlock m.1 m.2.1 m.2.2 := BOk_zero_eq m b hb hbh
      subst hae hbe
      simp [merge_block, ProfileBlock.record_time, mkBlock]
    · subst hae
      simp [merge_block, ProfileBlock.record_time, mkBlock, hbh]
  · by_cases hbh : b.hit_count = 0
    · obtain ⟨hbn, hbf, hbl, hbz⟩ := hb
      obtain ⟨hz1, hz2, hz3⟩ := hbz hbh
      obtain ⟨han, haf, hal, _⟩ := ha
      simp [merge_block, ProfileBlock.record_time, hah, hbh, hz1, hz2, hz3,
        han, haf, hal, hbn, hbf, hbl]
    · simp [merge_block, ProfileBlock.record_time, hah, hbh]
      omega

theorem OOk_ropt (m : BlockMeta) (d : Nat) (o : Option ProfileBlock) (h : OOk m o) :
    OOk m (ropt m d o) := by
  cases o with
  | none => exact BOk_record m _ d (BOk_mkBlock m)
  | some b => exact BOk_record m b d h

theorem OOk_mopt (m : BlockMeta) (o z : Option ProfileBlock) (ho : OOk m o) (hz : OOk m z) :
    OOk m (mopt o z) := by
  cases z with
  | none => simpa [mopt] using ho
  | some c =>
    cases o with
    | none =>
      by_cases hc : c.hit_count = 0 <;> simp [mopt, hc, OOk] <;> simpa [OOk] using hz
    | some a => exact BOk_merge m a c ho hz

theorem mopt_ropt_left (m : BlockMeta) (d : Nat) (o z : Option ProfileBlock)
    (ho : OOk m o) (hz : OOk m z) :
    mopt (ropt m d o) z = ropt m d (mopt o z) := by
  cases z with
  | none => simp
  | some c =>
    cases o with
    | none =>
      by_cases hc : c.hit_count = 0
      · have hce : c = mkBlock m.1 m.2.1 m.2.2 := BOk_zero_eq m c hz hc
        subst hce
        simp [mopt, ropt, merge_block, hc]
      · have h2 : merge_block ((mkBlock m.1 m.2.1 m.2.2).record_time d) c
            = (merge_block (mkBlock m.1 m.2.1 m.2.2) c).record_time d :=
          merge_comm_left m _ c d (BOk_mkBlock m) hz
        simp [mopt, ropt, hc] at h2 ⊢
        rw [h2]
        simp [merge_block, mkBlock, hc]
    | some a =>
      have h2 := merge_comm_left m a c d ho hz
      simp [mopt, ropt]
      rw [h2]

theorem mopt_ropt_right (m : BlockMeta) (d : Nat) (o w : Option ProfileBlock)
    (ho : OOk m o) (hw : OOk m w) :
    mopt o (ropt m d w) = ropt m d (mopt o w) := by
  cases o with
  | none =>
    cases w with
    | none => simp [mopt, ropt]
    | some c =>
      by_cases hc : c.hit_count = 0
      · have hce : c = mkBlock m.1 m.2.1 m.2.2 := BOk_zero_eq m c hw hc
        subst hce
        simp [mopt, ropt, hc]
      · simp [mopt, ropt, hc]
  | some a =>
    cases w with
    | none =>
      have h2 := merge_comm_right m a (mkBlock m.1 m.2.1 m.2.2) d ho (BOk_mkBlock m)
      simp [mopt, ropt]
      rw [h2]
      simp [merge_block, mkBlock]
    | some c =>
      have h2 := merge_comm_right m a c d ho hw
      simp [mopt, ropt]
      rw [h2]

theorem foldl_mopt_ropt (os : List (Option ProfileBlock)) (m : BlockMeta) (d : Nat)
    (X : Option ProfileBlock) (hX : OOk m X) (hos : ∀ z ∈ os, OOk m z) :
    os.foldl mopt (ropt m d X) = ropt m d (os.foldl mopt X) := by
  induction os generalizing X with
  | nil => simp
  | cons z os ih =>
    simp only [List.foldl_cons]
    rw [mopt_ropt_left m d X z hX (hos z (by simp))]
    exact ih (mopt X z) (OOk_mopt m X z hX (hos z (by simp)))
      (fun u hu => hos u (by simp [hu]))

/-! ### The per-key effect of `record` on the merged results -/

theorem alookup_table_record_self (tbl : ThreadTable) (k : Nat × Nat) (m : BlockMeta)
    (d : Nat) : alookup (table_record tbl k m d) k = ropt m d (alookup tbl k) := by
  cases h : alookup tbl k with
  | some b => simp [table_record, h, alookup_aset_self, ropt]
  | none => simp [table_record, h, alookup_aset_self, ropt]

theorem alookup_table_record_ne (tbl : ThreadTable) (k q : Nat × Nat) (m : BlockMeta)
    (d : Nat) (hne : q ≠ k) : alookup (table_record tbl k m d) q = alookup tbl q := by
  cases h : alookup tbl k with
  | some b => simp [table_record, h, alookup_aset_ne _ _ _ _ hne]
  | none => simp [table_record, h, alookup_aset_ne _ _ _ _ hne]

theorem mem_aset {κ α : Type} [DecidableEq κ] (l : List (κ × α)) (k : κ) (v : α) :
    ∀ x ∈ aset l k v, x ∈ l ∨ x = (k, v) := by
  induction l with
  | nil => simp [aset]
  | cons kv rest ih =>
    intro x hx
    obtain ⟨k0, v0⟩ := kv
    by_cases hk : k = k0
    · subst hk
      simp [aset] at hx
      rcases hx with rfl | hx
      · right; rfl
      · left; simp [hx]
    · simp [aset, hk] at hx
      rcases hx with rfl | hx
      · left; simp
      · rcases ih x hx with h | h
        · left; simp [h]
        · right; exact h

theorem mem_of_alookup {κ α : Type} [DecidableEq κ] (l : List (κ × α)) (k : κ) (v : α)
    (h : alookup l k = some v) : (k, v) ∈ l := by
  induction l with
  | nil => simp [alookup] at h
  | cons kv rest ih =>
    obtain ⟨k0, v0⟩ := kv
    by_cases hk : k = k0
    · subst hk
      simp [alookup] at h
      simp [h]
    · simp [alookup, hk] at h
      simp [ih h]

theorem fold_map_aset_record (ths : List (Nat × ThreadTable)) (o0 : Option ProfileBlock)
    (tid : Nat) (k : Nat × Nat) (m : BlockMeta) (d : Nat)
    (h0 : OOk m o0) (hths : ∀ t ∈ ths, OOk m (alookup t.2 k)) :
    ((aset ths tid (table_record ((alookup ths tid).getD []) k m d)).map
        (fun t => alookup t.2 k)).foldl mopt o0
      = ropt m d ((ths.map (fun t => alookup t.2 k)).foldl mopt o0) := by
  induction ths generalizing o0 with
  | nil =>
    simp only [alookup_nil, Option.getD_none, aset_nil, List.map_cons, List.map_nil,
      List.foldl_cons, List.foldl_nil, alookup_table_record_self]
    simpa using mopt_ropt_right m d o0 none h0 trivial
  | cons t rest ih =>
    obtain ⟨t0, tbl0⟩ := t
    by_cases htid : tid = t0
    · subst htid
      simp only [alookup_cons_self, Option.getD_some, aset_cons_self, List.map_cons,
        List.foldl_cons, alookup_table_record_self]
      rw [mopt_ropt_right m d o0 (alookup tbl0 k) h0 (hths (tid, tbl0) (by simp))]
      exact foldl_mopt_ropt _ m d _
        (OOk_mopt m o0 (alookup tbl0 k) h0 (hths (tid, tbl0) (by simp)))
        (by
          intro z hz
          simp only [List.mem_map] at hz
          obtain ⟨u, hu, rfl⟩ := hz
          exact hths u (by simp [hu]))
    · rw [alookup_cons_ne _ _ _ _ htid, aset_cons_ne _ _ _ _ _ htid]
      simp only [List.map_cons, List.foldl_cons]
      exact ih (mopt o0 (alookup tbl0 k))
        (OOk_mopt m o0 (alookup tbl0 k) h0 (hths (t0, tbl0) (by simp)))
        (fun u hu => hths u (by simp [hu]))

theorem fold_map_aset_record_frame (ths : List (Nat × ThreadTable))
    (o0 : Option ProfileBlock) (tid : Nat) (k q : Nat × Nat) (m : BlockMeta) (d : Nat)
    (hne : q ≠ k) :
    ((aset ths tid (table_record ((alookup ths tid).getD []) k m d)).map
        (fun t => alookup t.2 q)).foldl mopt o0
      = ((ths.map (fun t => alookup t.2 q)).foldl mopt o0) := by
  induction ths generalizing o0 with
  | nil =>
    simp only [alookup_nil, Option.getD_none, aset_nil, List.map_cons, List.map_nil,
      List.foldl_cons, List.foldl_nil, alookup_table_record_ne _ _ _ _ _ hne]
    simp
  | cons t rest ih =>
    obtain ⟨t0, tbl0⟩ := t
    by_cases htid : tid = t0
    · subst htid
      simp only [alookup_cons_self, Option.getD_some, aset_cons_self, List.map_cons,
        List.foldl_cons, alookup_table_record_ne _ _ _ _ _ hne]
    · rw [alookup_cons_ne _ _ _ _ htid, aset_cons_ne _ _ _ _ _ htid]
      simp only [List.map_cons, List.foldl_cons]
      exact ih (mopt o0 (alookup tbl0 q))

theorem OOk_init (p : Profiler) (k : Nat × Nat) :
    OOk (block_meta p k) (alookup (init_blocks p) k) := by
  rw [alookup_init_blocks]
  cases h : alookup p.blocks k with
  | none => trivial
  | some m0 =>
    have : block_meta p k = m0 := by simp [block_meta, h]
    rw [this]
    exact BOk_mkBlock m0

@[simp]
theorem record_blocks (p : Profiler) (tid track bidx d : Nat) :
    (p.record tid track bidx d).blocks = p.blocks := rfl

@[simp]
theorem record_block_meta (p : Profiler) (tid track bidx d : Nat) (k : Nat × Nat) :
    block_meta (p.record tid track bidx d) k = block_meta p k := rfl

theorem record_threads (p : Profiler) (tid track bidx d : Nat) :
    (p.record tid track bidx d).threads
      = aset p.threads tid
          (table_record ((alookup p.threads tid).getD [])
            (track, bidx) (block_meta p (track, bidx)) d) := rfl

theorem nodup_table_record (tbl : ThreadTable) (k : Nat × Nat) (m : BlockMeta) (d : Nat)
    (h : (akeys tbl).Nodup) : (akeys (table_record tbl k m d)).Nodup := by
  cases hl : alookup tbl k with
  | some b => simpa [table_record, hl] using nodup_akeys_aset tbl k _ h
  | none => simpa [table_record, hl] using nodup_akeys_aset tbl k _ h

theorem WfT_nodup_record (p : Profiler) (tid track bidx d : Nat) (h : WfT p) :
    ∀ t ∈ (p.record tid track bidx d).threads, (akeys t.2).Nodup := by
  intro t ht
  rw [record_threads] at ht
  rcases mem_aset _ _ _ t ht with hmem | rfl
  · exact h.1 t hmem
  · cases hl : alookup p.threads tid with
    | some tbl0 =>
      simp only [hl, Option.getD_some]
      exact nodup_table_record tbl0 _ _ d (h.1 (tid, tbl0) (mem_of_alookup _ _ _ hl))
    | none =>
      simp only [hl, Option.getD_none]
      exact nodup_table_record [] _ _ d (by simp [akeys])

theorem WfT_record (p : Profiler) (tid track bidx d : Nat) (h : WfT p) :
    WfT (p.record tid track bidx d) := by
  refine ⟨WfT_nodup_record p tid track bidx d h, ?_⟩
  intro t ht k
  rw [record_block_meta]
  rw [record_threads] at ht
  rcases mem_aset _ _ _ t ht with hmem | rfl
  · exact h.2 t hmem k
  · by_cases hk : k = (track, bidx)
    · subst hk
      rw [alookup_table_record_self]
      cases hl : alookup p.threads tid with
      | some tbl0 =>
        simp only [hl, Option.getD_some]
        exact OOk_ropt _ d _ (h.2 (tid, tbl0) (mem_of_alookup _ _ _ hl) _)
      | none =>
        simp only [hl, Option.getD_none]
        exact OOk_ropt _ d none trivial
    · rw [alookup_table_record_ne _ _ _ _ _ hk]
      cases hl : alookup p.threads tid with
      | some tbl0 =>
        simp only [hl, Option.getD_some]
        exact h.2 (tid, tbl0) (mem_of_alookup _ _ _ hl) k
      | none =>
        simp only [hl, Option.getD_none, alookup_nil]
        trivial

/-- The merged results of `get_results` after one `record` at a key: the block
reported at that key is the previously reported block with one more recording
folded in (or a fresh copy recording the duration, on the key's first hit). -/
theorem get_results_record_self (p : Profiler) (tid track bidx d : Nat) (h : WfT p) :
    alookup (p.record tid track bidx d).get_results (track, bidx)
      = ropt (block_meta p (track, bidx)) d (alookup p.get_results (track, bidx)) := by
  rw [alookup_get_results _ _ (WfT_nodup_record p tid track bidx d h),
    alookup_get_results _ _ h.1]
  have hinit : init_blocks (p.record tid track bidx d) = init_blocks p := rfl
  rw [show (p.record tid track bidx d).threads = _ from record_threads p tid track bidx d,
    hinit]
  exact fold_map_aset_record p.threads _ tid (track, bidx) _ d
    (OOk_init p (track, bidx)) (fun t ht => h.2 t ht (track, bidx))

/-- `record` at one key leaves the merged results at every other key unchanged. -/
theorem get_results_record_frame (p : Profiler) (tid track bidx d : Nat) (q : Nat × Nat)
    (h : WfT p) (hne : q ≠ (track, bidx)) :
    alookup (p.record tid track bidx d).get_results q = alookup p.get_results q := by
  rw [alookup_get_results _ _ (WfT_nodup_record p tid track bidx d h),
    alookup_get_results _ _ h.1]
  have hinit : init_blocks (p.record tid track bidx d) = init_blocks p := rfl
  rw [show (p.record tid track bidx d).threads = _ from record_threads p tid track bidx d,
    hinit]
  exact fold_map_aset_record_frame p.threads _ tid (track, bidx) q _ d hne

/-! ### Unfolding one instrumented call -/

theorem aset_aset {κ α : Type} [DecidableEq κ] (l : List (κ × α)) (k : κ) (v w : α) :
    aset (aset l k v) k w = aset l k w := by
  induction l with
  | nil => simp
  | cons kv rest ih =>
    obtain ⟨k0, v0⟩ := kv
    by_cases hk : k = k0
    · subst hk
      simp
    · rw [aset_cons_ne _ _ _ _ _ hk, aset_cons_ne _ _ _ _ _ hk,
        aset_cons_ne _ _ _ _ _ hk, ih]

@[simp]
theorem record_started (p : Profiler) (tid track bidx d : Nat) :
    (p.record tid track bidx d).started = p.started := rfl

@[simp]
theorem record_track_enabled (p : Profiler) (tid track bidx d : Nat) :
    (p.record tid track bidx d).track_enabled = p.track_enabled := rfl

@[simp]
theorem record_next_idx (p : Profiler) (tid track bidx d : Nat) :
    (p.record tid track bidx d).next_idx = p.next_idx := rfl

@[simp]
theorem register_started (p : Profiler) (s : CallSite) :
    ((register_block p s).2).started = p.started := rfl

@[simp]
theorem register_track_enabled (p : Profiler) (s : CallSite) :
    ((register_block p s).2).track_enabled = p.track_enabled := rfl

@[simp]
theorem register_threads (p : Profiler) (s : CallSite) :
    ((register_block p s).2).threads = p.threads := rfl

@[simp]
theorem register_is_track_enabled (p : Profiler) (s : CallSite) (t : Nat) :
    ((register_block p s).2).is_track_enabled t = p.is_track_enabled t := rfl

@[simp]
theorem set_track_enabled_get_results (p : Profiler) (t : Nat) (e : Bool) :
    (p.set_track_enabled t e).get_results = p.get_results := rfl

theorem tracked_call_global_off (st : Registry) (pid : Nat) (s : CallSite) (tid d : Nat)
    (h : st.global_enabled = false) : tracked_call st pid s tid d = st := by
  simp [tracked_call, h]

theorem tracked_call_cached_pass (st : Registry) (pid : Nat) (s : CallSite) (tid d : Nat)
    (q0 i : Nat) (p : Profiler) (hg : st.global_enabled = true)
    (hc : alookup st.cache s = some (q0, i)) (hp : alookup st.profilers q0 = some p)
    (htrk : p.is_track_enabled s.track = true) (hst : p.started = true) :
    tracked_call st pid s tid d
      = { st with profilers := aset st.profilers q0 (p.record tid s.track i d) } := by
  simp [tracked_call, hg, resolve_or_register, hc, hp, htrk, hst]

theorem tracked_call_cached_skip (st : Registry) (pid : Nat) (s : CallSite) (tid d : Nat)
    (q0 i : Nat) (p : Profiler)
    (hc : alookup st.cache s = some (q0, i)) (hp : alookup st.profilers q0 = some p)
    (hgate : (p.is_track_enabled s.track && p.started) = false) :
    tracked_call st pid s tid d = st := by
  by_cases hg : st.global_enabled = true
  · simp [tracked_call, hg, resolve_or_register, hc, hp, hgate]
  · simp at hg
    exact tracked_call_global_off st pid s tid d hg

theorem tracked_call_register_pass (st : Registry) (pid : Nat) (s : CallSite) (tid d : Nat)
    (p : Profiler) (hg : st.global_enabled = true)
    (hc : alookup st.cache s = none) (hp : alookup st.profilers pid = some p)
    (htrk : p.is_track_enabled s.track = true) (hst : p.started = true) :
    tracked_call st pid s tid d
      = { st with
          profilers := aset st.profilers pid
            (((register_block p s).2).record tid s.track
              ((alookup p.next_idx s.track).getD 0) d)
          cache := aset st.cache s (pid, (alookup p.next_idx s.track).getD 0) } := by
  have htrk2 : (alookup p.track_enabled s.track).getD true = true := by
    simpa [Profiler.is_track_enabled] using htrk
  simp only [tracked_call, hg, Bool.not_true, Bool.false_eq_true, if_false,
    resolve_or_register, hc, hp]
  rw [alookup_aset_self]
  simp [register_block, Profiler.is_track_enabled, htrk2, hst, aset_aset]

theorem tracked_call_register_skip (st : Registry) (pid : Nat) (s : CallSite) (tid d : Nat)
    (p : Profiler) (hg : st.global_enabled = true)
    (hc : alookup st.cache s = none) (hp : alookup st.profilers pid = some p)
    (hgate : (p.is_track_enabled s.track && p.started) = false) :
    tracked_call st pid s tid d
      = { st with
          profilers := aset st.profilers pid (register_block p s).2
          cache := aset st.cache s (pid, (alookup p.next_idx s.track).getD 0) } := by
  have hgate2 : ((alookup p.track_enabled s.track).getD true && p.started) = false := by
    simpa [Profiler.is_track_enabled] using hgate
  simp only [tracked_call, hg, Bool.not_true, Bool.false_eq_true, if_false,
    resolve_or_register, hc, hp]
  rw [alookup_aset_self]
  simp [register_block, Profiler.is_track_enabled, hgate2, aset_aset]

theorem foldl_mopt_all_none (os : List (Option ProfileBlock)) (X : Option ProfileBlock)
    (h : ∀ z ∈ os, z = none) : os.foldl mopt X = X := by
  induction os generalizing X with
  | nil => rfl
  | cons z os ih =>
    rw [List.foldl_cons, h z (by simp), mopt_none_right]
    exact ih X (fun u hu => h u (by simp [hu]))

theorem is_track_enabled_nil (p : Profiler) (h : p.track_enabled = []) (t : Nat) :
    p.is_track_enabled t = true := by
  simp [Profiler.is_track_enabled, h]

theorem WfT_register (p : Profiler) (s : CallSite) (hWf : WfT p)
    (hsupp : ∀ t ∈ p.threads,
      alookup t.2 (s.track, (alookup p.next_idx s.track).getD 0) = none) :
    WfT (register_block p s).2 := by
  refine ⟨hWf.1, ?_⟩
  intro t ht k
  by_cases hk : k = (s.track, (alookup p.next_idx s.track).getD 0)
  · subst hk
    rw [hsupp t ht]
    trivial
  · have hbm : block_meta (register_block p s).2 k = block_meta p k := by
      simp only [block_meta, register_block]
      rw [alookup_aset_ne _ _ _ _ hk]
    rw [hbm]
    exact hWf.2 t ht k

theorem get_results_register_record_self (p : Profiler) (s : CallSite) (tid d : Nat)
    (hWf : WfT p)
    (hsupp : ∀ t ∈ p.threads,
      alookup t.2 (s.track, (alookup p.next_idx s.track).getD 0) = none) :
    alookup (((register_block p s).2).record tid s.track
        ((alookup p.next_idx s.track).getD 0) d).get_results
        (s.track, (alookup p.next_idx s.track).getD 0)
      = some ((mkBlock s.name s.file s.line).record_time d) := by
  have hWf1 : WfT (register_block p s).2 := WfT_register p s hWf hsupp
  rw [get_results_record_self _ tid _ _ d hWf1]
  have hbm : block_meta (register_block p s).2
      (s.track, (alookup p.next_idx s.track).getD 0) = smeta s := by
    simp [block_meta, register_block, alookup_aset_self, smeta]
  have hres : alookup ((register_block p s).2).get_results
      (s.track, (alookup p.next_idx s.track).getD 0)
        = some (mkBlock s.name s.file s.line) := by
    rw [alookup_get_results _ _ hWf1.1]
    rw [foldl_mopt_all_none _ _ (by
      intro z hz
      simp only [register_threads, List.mem_map] at hz
      obtain ⟨u, hu, rfl⟩ := hz
      exact hsupp u hu)]
    rw [alookup_init_blocks]
    simp [register_block, alookup_aset_self, mkBlock]
  rw [hbm, hres]
  rfl

theorem get_results_register_record_frame (p : Profiler) (s : CallSite) (tid d : Nat)
    (q : Nat × Nat) (hWf : WfT p)
    (hsupp : ∀ t ∈ p.threads,
      alookup t.2 (s.track, (alookup p.next_idx s.track).getD 0) = none)
    (hq : q ≠ (s.track, (alookup p.next_idx s.track).getD 0)) :
    alookup (((register_block p s).2).record tid s.track
        ((alookup p.next_idx s.track).getD 0) d).get_results q
      = alookup p.get_results q := by
  have hWf1 : WfT (register_block p s).2 := WfT_register p s hWf hsupp
  rw [get_results_record_frame _ tid _ _ d q hWf1 hq]
  rw [alookup_get_results _ _ hWf1.1, alookup_get_results _ _ hWf.1]
  have hinit : alookup (init_blocks (register_block p s).2) q = alookup (init_blocks p) q := by
    rw [alookup_init_blocks, alookup_init_blocks]
    simp only [register_block]
    rw [alookup_aset_ne _ _ _ _ hq]
  rw [show ((register_block p s).2).threads = p.threads from rfl, hinit]

theorem SOne_step (s : CallSite) (st : Registry) (h : SOne s st) (pid tid d : Nat) :
    SOne s (tracked_call st pid s tid d) ∧
    results_at (tracked_call st pid s tid d) 0 (skey s)
      = ropt (smeta s) d (results_at st 0 (skey s)) ∧
    ∀ q, q ≠ skey s →
      results_at (tracked_call st pid s tid d) 0 q = results_at st 0 q := by
  obtain ⟨hg, hcache, p, hp, hst, hte, hblocks, hnext, hWf, hsupp⟩ := h
  have hc : alookup st.cache s = some (0, 0) := by rw [hcache]; simp
  have htrk : p.is_track_enabled s.track = true := is_track_enabled_nil p hte s.track
  have hcall := tracked_call_cached_pass st pid s tid d 0 0 p hg hc hp htrk hst
  have hbm : block_meta p (skey s) = smeta s := by
    simp [block_meta, hblocks]
  have hkey : (s.track, 0) = skey s := rfl
  refine ⟨⟨by rw [hcall]; exact hg, by rw [hcall]; exact hcache,
    p.record tid s.track 0 d, ?_, by simp [hst],
    by simp [hte], by simp [hblocks], by simp [hnext], WfT_record p tid s.track 0 d hWf, ?_⟩,
    ?_, ?_⟩
  · rw [hcall]
    exact alookup_aset_self st.profilers 0 _
  · -- support: every thread block still sits at the site's key only
    intro t ht q hq
    rw [record_threads] at ht
    rcases mem_aset _ _ _ t ht with hmem | rfl
    · exact hsupp t hmem q hq
    · rw [alookup_table_record_ne _ _ _ _ _ (by rw [hkey]; exact hq)]
      cases hl : alookup p.threads tid with
      | some tbl0 => simpa [hl] using hsupp (tid, tbl0) (mem_of_alookup _ _ _ hl) q hq
      | none => simp [hl]
  · rw [hcall]
    simp only [results_at, alookup_aset_self, hp]
    rw [show skey s = (s.track, 0) from rfl,
      get_results_record_self p tid s.track 0 d hWf,
      show block_meta p (s.track, 0) = smeta s from hbm]
  · intro q hq
    rw [hcall]
    simp only [results_at, alookup_aset_self, hp]
    exact get_results_record_frame p tid s.track 0 d q hWf (by simpa [skey] using hq)

theorem ropt_fold_cons (m : BlockMeta) (o : Option ProfileBlock) (d : Nat) (ds : List Nat) :
    ropt_fold m o (d :: ds) = ropt_fold m (ropt m d o) ds := rfl

theorem ropt_fold_some (m : BlockMeta) (ds : List Nat) (b : ProfileBlock) :
    ropt_fold m (some b) ds = some (fold_record b ds) := by
  induction ds generalizing b with
  | nil => rfl
  | cons d rest ih =>
    rw [ropt_fold_cons, show ropt m d (some b) = some (b.record_time d) from rfl,
      ih (b.record_time d)]
    rfl

theorem SOne_run (s : CallSite) (st : Registry) (h : SOne s st) (evs : List (Nat × Nat)) :
    SOne s (run 0 st (call_ops s evs)) ∧
    results_at (run 0 st (call_ops s evs)) 0 (skey s)
      = ropt_fold (smeta s) (results_at st 0 (skey s)) (evs.map Prod.snd) ∧
    ∀ q, q ≠ skey s →
      results_at (run 0 st (call_ops s evs)) 0 q = results_at st 0 q := by
  induction evs generalizing st with
  | nil => exact ⟨h, rfl, fun q _ => rfl⟩
  | cons e rest ih =>
    obtain ⟨h1, h2, h3⟩ := SOne_step s st h 0 e.1 e.2
    have hrun : run 0 st (call_ops s (e :: rest))
        = run 0 (tracked_call st 0 s e.1 e.2) (call_ops s rest) := by
      simp [call_ops, run, apply_op]
    obtain ⟨ih1, ih2, ih3⟩ := ih _ h1
    refine ⟨by rw [hrun]; exact ih1, ?_, ?_⟩
    · rw [hrun, ih2, h2, List.map_cons, ropt_fold_cons]
    · intro q hq
      rw [hrun, ih3 q hq, h3 q hq]

theorem SOne_boot (s : CallSite) (nm : String) (tid d : Nat) :
    SOne s (tracked_call (boot nm) 0 s tid d) ∧
    results_at (tracked_call (boot nm) 0 s tid d) 0 (skey s)
      = some ((mkBlock s.name s.file s.line).record_time d) := by
  have hp : alookup (boot nm).profilers 0 = some (mkProfiler nm) := rfl
  have hg : (boot nm).global_enabled = true := rfl
  have hc : alookup (boot nm).cache s = none := rfl
  have htrk : (mkProfiler nm).is_track_enabled s.track = true := rfl
  have hst : (mkProfiler nm).started = true := rfl
  have hcall := tracked_call_register_pass (boot nm) 0 s tid d (mkProfiler nm)
    hg hc hp htrk hst
  have hidx : (alookup (mkProfiler nm).next_idx s.track).getD 0 = 0 := rfl
  rw [hidx] at hcall
  have hWf0 : WfT (mkProfiler nm) := ⟨by simp [mkProfiler], by simp [mkProfiler]⟩
  have hsupp0 : ∀ t ∈ (mkProfiler nm).threads,
      alookup t.2 (s.track, (alookup (mkProfiler nm).next_idx s.track).getD 0) = none := by
    simp [mkProfiler]
  constructor
  · refine ⟨by rw [hcall]; exact hg, ?_,
      ((register_block (mkProfiler nm) s).2).record tid s.track 0 d, ?_,
      rfl, rfl, ?_, ?_, ?_, ?_⟩
    · rw [hcall]
      rfl
    · rw [hcall]
      rfl
    · simp [register_block, mkProfiler, skey, smeta]
    · simp [register_block, mkProfiler]
    · exact WfT_record _ tid s.track 0 d (WfT_register (mkProfiler nm) s hWf0 hsupp0)
    · intro t ht q hq
      rw [record_threads] at ht
      simp only [register_threads, mkProfiler] at ht
      rcases mem_aset _ _ _ t ht with hmem | rfl
      · simp at hmem
      · rw [alookup_table_record_ne _ _ _ _ _ (by exact hq)]
        simp
  · rw [hcall]
    have hlook : alookup ({ (boot nm) with
        profilers := aset (boot nm).profilers 0
          (((register_block (mkProfiler nm) s).2).record tid s.track 0 d)
        cache := aset (boot nm).cache s (0, 0) } : Registry).profilers 0
        = some (((register_block (mkProfiler nm) s).2).record tid s.track 0 d) := rfl
    rw [results_at, hlook]
    have h2 := get_results_register_record_self (mkProfiler nm) s tid d hWf0 hsupp0
    rw [hidx] at h2
    exact h2

/-- The whole single-site scenario: any non-empty interleaving of recording
events from any threads, run from a fresh registry and profiler, makes the
merged results report exactly the fold of `record_time` over the event
durations, starting from the registered block's zeroed copy. -/
theorem scenario_cons (s : CallSite) (nm : String) (e : Nat × Nat)
    (rest : List (Nat × Nat)) :
    SOne s (run 0 (boot nm) (call_ops s (e :: rest))) ∧
    results_at (run 0 (boot nm) (call_ops s (e :: rest))) 0 (skey s)
      = some (fold_record (mkBlock s.name s.file s.line) ((e :: rest).map Prod.snd)) := by
  have hrun : run 0 (boot nm) (call_ops s (e :: rest))
      = run 0 (tracked_call (boot nm) 0 s e.1 e.2) (call_ops s rest) := by
    simp [call_ops, run, apply_op]
  obtain ⟨hb1, hb2⟩ := SOne_boot s nm e.1 e.2
  obtain ⟨hr1, hr2, _⟩ := SOne_run s _ hb1 rest
  refine ⟨by rw [hrun]; exact hr1, ?_⟩
  rw [hrun, hr2, hb2, ropt_fold_some]
  rfl

theorem scenario_SOne (s : CallSite) (nm : String) (evs : List (Nat × Nat))
    (hne : evs ≠ []) : SOne s (run 0 (boot nm) (call_ops s evs)) := by
  cases evs with
  | nil => exact absurd rfl hne
  | cons e rest => exact (scenario_cons s nm e rest).1

theorem scenario_results (s : CallSite) (nm : String) (evs : List (Nat × Nat))
    (hne : evs ≠ []) :
    results_at (run 0 (boot nm) (call_ops s evs)) 0 (skey s)
      = some (fold_record (mkBlock s.name s.file s.line) (evs.map Prod.snd)) := by
  cases evs with
  | nil => exact absurd rfl hne
  | cons e rest => exact (scenario_cons s nm e rest).2

theorem results_at_boot (nm : String) (k : Nat × Nat) :
    results_at (boot nm) 0 k = none := rfl

/-- Statistics of the fold of recordings into a fresh block. -/
theorem fold_record_fresh_stats (nme fl : String) (ln d0 : Nat) (ds : List Nat) :
    (fold_record (mkBlock nme fl ln) (d0 :: ds)).hit_count = (d0 :: ds).length ∧
    (fold_record (mkBlock nme fl ln) (d0 :: ds)).total_time_ns = (d0 :: ds).sum ∧
    (fold_record (mkBlock nme fl ln) (d0 :: ds)).min_time_ns ∈ (d0 :: ds) ∧
    (∀ x ∈ (d0 :: ds), (fold_record (mkBlock nme fl ln) (d0 :: ds)).min_time_ns ≤ x) ∧
    (fold_record (mkBlock nme fl ln) (d0 :: ds)).max_time_ns ∈ (d0 :: ds) ∧
    (∀ x ∈ (d0 :: ds), x ≤ (fold_record (mkBlock nme fl ln) (d0 :: ds)).max_time_ns) := by
  have hcons : fold_record (mkBlock nme fl ln) (d0 :: ds)
      = fold_record ((mkBlock nme fl ln).record_time d0) ds := rfl
  have hmin0 : ((mkBlock nme fl ln).record_time d0).min_time_ns = d0 := by
    simp [mkBlock, ProfileBlock.record_time]
  have hmax0 : ((mkBlock nme fl ln).record_time d0).max_time_ns = d0 := by
    simp [mkBlock, ProfileBlock.record_time]
  have hmin : (fold_record (mkBlock nme fl ln) (d0 :: ds)).min_time_ns = ds.foldl min d0 := by
    rw [hcons, fold_record_min_of_pos ds _ (by simp [mkBlock]), hmin0]
  have hmax : (fold_record (mkBlock nme fl ln) (d0 :: ds)).max_time_ns = ds.foldl max d0 := by
    rw [hcons, fold_record_max, hmax0]
  refine ⟨?_, ?_, ?_, ?_, ?_, ?_⟩
  · rw [fold_record_hit]
    simp [mkBlock]
  · rw [fold_record_total]
    simp [mkBlock]
  · rw [hmin]
    exact foldl_min_mem ds d0
  · rw [hmin]
    exact foldl_min_le ds d0
  · rw [hmax]
    exact foldl_max_mem ds d0
  · rw [hmax]
    exact foldl_le_max ds d0

theorem thread_events_snd (tds : List (Nat × List Nat)) :
    (thread_events tds).map Prod.snd = (tds.map Prod.snd).flatten := by
  induction tds with
  | nil => rfl
  | cons td rest ih =>
    simp only [thread_events, List.map_cons, List.flatten_cons, List.map_append,
      List.map_map]
    have hcomp : (Prod.snd ∘ fun dd => (td.1, dd)) = (id : Nat → Nat) := rfl
    rw [hcomp, List.map_id]
    simp only [thread_events] at ih
    rw [ih]

/-- C1: with every gate enabled, the merged block aggregates every thread's
recordings: hit count is the sum of per-thread hit counts, total time is the
sum of per-thread recorded durations, and min/max are the extrema over all
recorded durations. -/
theorem C1_sequential_merge_statistics (s : CallSite) (nm : String)
    (tds : List (Nat × List Nat)) (hne : (tds.map Prod.snd).flatten ≠ []) :
    ∃ b, results_at (run 0 (boot nm) (call_ops s (thread_events tds))) 0 (skey s) = some b ∧
      b.hit_count = (tds.map (fun td => td.2.length)).sum ∧
      b.total_time_ns = (tds.map (fun td => td.2.sum)).sum ∧
      b.min_time_ns ∈ (tds.map Prod.snd).flatten ∧
      (∀ x ∈ (tds.map Prod.snd).flatten, b.min_time_ns ≤ x) ∧
      b.max_time_ns ∈ (tds.map Prod.snd).flatten ∧
      (∀ x ∈ (tds.map Prod.snd).flatten, x ≤ b.max_time_ns) := by
  have hevs : (thread_events tds).map Prod.snd = (tds.map Prod.snd).flatten :=
    thread_events_snd tds
  have hne2 : thread_events tds ≠ [] := by
    intro h0
    rw [h0] at hevs
    exact hne hevs.symm
  refine ⟨fold_record (mkBlock s.name s.file s.line) ((thread_events tds).map Prod.snd),
    scenario_results s nm (thread_events tds) hne2, ?_⟩
  rw [hevs]
  obtain ⟨d0, ds, hds⟩ := List.exists_cons_of_ne_nil hne
  rw [hds]
  obtain ⟨h1, h2, h3, h4, h5, h6⟩ := fold_record_fresh_stats s.name s.file s.line d0 ds
  refine ⟨?_, ?_, h3, h4, h5, h6⟩
  · rw [h1, ← hds, List.length_flatten, List.map_map]
    rfl
  · rw [h2, ← hds, List.sum_flatten, List.map_map]
    rfl

/-- C1 witness. -/
theorem C1_sequential_merge_statistics_witness :
    ((([(1, [5]), (2, [7, 9]), (3, [])] : List (Nat × List Nat)).map Prod.snd).flatten
        ≠ ([] : List Nat)) ∧
    (∃ b, results_at (run 0 (boot "P")
        (call_ops ⟨0, "f.py", 3, "blk"⟩ (thread_events [(1, [5]), (2, [7, 9]), (3, [])])))
        0 (skey ⟨0, "f.py", 3, "blk"⟩) = some b ∧
      b.hit_count = (([(1, [5]), (2, [7, 9]), (3, [])] : List (Nat × List Nat)).map
        (fun td => td.2.length)).sum ∧
      b.total_time_ns = (([(1, [5]), (2, [7, 9]), (3, [])] : List (Nat × List Nat)).map
        (fun td => td.2.sum)).sum ∧
      b.min_time_ns ∈ (([(1, [5]), (2, [7, 9]), (3, [])] : List (Nat × List Nat)).map
        Prod.snd).flatten ∧
      (∀ x ∈ (([(1, [5]), (2, [7, 9]), (3, [])] : List (Nat × List Nat)).map
        Prod.snd).flatten, b.min_time_ns ≤ x) ∧
      b.max_time_ns ∈ (([(1, [5]), (2, [7, 9]), (3, [])] : List (Nat × List Nat)).map
        Prod.snd).flatten ∧
      (∀ x ∈ (([(1, [5]), (2, [7, 9]), (3, [])] : List (Nat × List Nat)).map
        Prod.snd).flatten, x ≤ b.max_time_ns)) :=
  ⟨by decide, C1_sequential_merge_statistics ⟨0, "f.py", 3, "blk"⟩ "P"
    [(1, [5]), (2, [7, 9]), (3, [])] (by decide)⟩

theorem resolve_SOne (s : CallSite) (st : Registry) (h : SOne s st) (q : Nat) :
    resolve_or_register st s q = ((0, 0), st) := by
  obtain ⟨hg, hcache, _⟩ := h
  have hc : alookup st.cache s = some (0, 0) := by
    rw [hcache]
    simp
  simp [resolve_or_register, hc]

theorem run_nil (pid : Nat) (st : Registry) : run pid st [] = st := rfl

/-- C2: every invocation of one instrumented call site resolves to the same
(profiler, block index) pair — after the first call, every later resolution is
the cached (0, 0) and changes nothing — exactly one block is ever registered
for the site, and N recorded invocations leave it with hit_count = N. -/
theorem C2_call_site_unique_block (s : CallSite) (nm : String) (evs : List (Nat × Nat))
    (hne : evs ≠ []) :
    (∀ n q, 1 ≤ n →
      resolve_or_register (run 0 (boot nm) (call_ops s (evs.take n))) s q
        = ((0, 0), run 0 (boot nm) (call_ops s (evs.take n)))) ∧
    (∃ p, alookup (run 0 (boot nm) (call_ops s evs)).profilers 0 = some p ∧
      p.blocks = [(skey s, smeta s)] ∧
      (run 0 (boot nm) (call_ops s evs)).cache = [(s, (0, 0))]) ∧
    (∃ b, results_at (run 0 (boot nm) (call_ops s evs)) 0 (skey s) = some b ∧
      b.hit_count = evs.length) := by
  refine ⟨?_, ?_, ?_⟩
  · intro n q hn
    have htk : evs.take n ≠ [] := by
      cases evs with
      | nil => exact absurd rfl hne
      | cons e rest =>
        cases n with
        | zero => omega
        | succ m => simp
    exact resolve_SOne s _ (scenario_SOne s nm _ htk) q
  · obtain ⟨hg, hcache, p, hp, hst, hte, hblocks, _⟩ := scenario_SOne s nm evs hne
    exact ⟨p, hp, hblocks, hcache⟩
  · refine ⟨_, scenario_results s nm evs hne, ?_⟩
    rw [fold_record_hit]
    simp [mkBlock]

/-- C2 witness. -/
theorem C2_call_site_unique_block_witness :
    (([(7, 11), (8, 13)] : List (Nat × Nat)) ≠ []) ∧
    ((∀ n q, 1 ≤ n →
      resolve_or_register (run 0 (boot "P")
          (call_ops ⟨2, "g.py", 9, "cached"⟩ (([(7, 11), (8, 13)] : List (Nat × Nat)).take n)))
          ⟨2, "g.py", 9, "cached"⟩ q
        = ((0, 0), run 0 (boot "P")
            (call_ops ⟨2, "g.py", 9, "cached"⟩ (([(7, 11), (8, 13)] : List (Nat × Nat)).take n)))) ∧
    (∃ p, alookup (run 0 (boot "P")
        (call_ops ⟨2, "g.py", 9, "cached"⟩ [(7, 11), (8, 13)])).profilers 0 = some p ∧
      p.blocks = [(skey ⟨2, "g.py", 9, "cached"⟩, smeta ⟨2, "g.py", 9, "cached"⟩)] ∧
      (run 0 (boot "P") (call_ops ⟨2, "g.py", 9, "cached"⟩ [(7, 11), (8, 13)])).cache
        = [(⟨2, "g.py", 9, "cached"⟩, (0, 0))]) ∧
    (∃ b, results_at (run 0 (boot "P")
        (call_ops ⟨2, "g.py", 9, "cached"⟩ [(7, 11), (8, 13)])) 0
        (skey ⟨2, "g.py", 9, "cached"⟩) = some b ∧
      b.hit_count = ([(7, 11), (8, 13)] : List (Nat × Nat)).length)) :=
  ⟨by decide, C2_call_site_unique_block ⟨2, "g.py", 9, "cached"⟩ "P" [(7, 11), (8, 13)]
    (by decide)⟩

/-- C3: concurrent `get_results` under ongoing recordings, modelled as reading
the merged results at every prefix of the interleaved event sequence: each
observation is a consistent snapshot (hit count and total time reflect exactly
the same prefix of events — never a torn update), and hit counts are
monotonically non-decreasing across successive observations. -/
theorem C3_concurrent_get_results (s : CallSite) (nm : String) (evs : List (Nat × Nat)) :
    (∀ n, ohit (results_at (run 0 (boot nm) (call_ops s (evs.take n))) 0 (skey s))
        = (evs.take n).length ∧
      ototal (results_at (run 0 (boot nm) (call_ops s (evs.take n))) 0 (skey s))
        = ((evs.take n).map Prod.snd).sum) ∧
    (∀ i j, i ≤ j →
      ohit (results_at (run 0 (boot nm) (call_ops s (evs.take i))) 0 (skey s))
        ≤ ohit (results_at (run 0 (boot nm) (call_ops s (evs.take j))) 0 (skey s))) := by
  have hmain : ∀ n, ohit (results_at (run 0 (boot nm) (call_ops s (evs.take n))) 0 (skey s))
      = (evs.take n).length ∧
      ototal (results_at (run 0 (boot nm) (call_ops s (evs.take n))) 0 (skey s))
        = ((evs.take n).map Prod.snd).sum := by
    intro n
    by_cases htk : evs.take n = []
    · rw [htk]
      rw [show call_ops s [] = [] from rfl, run_nil, results_at_boot]
      simp [ohit, ototal]
    · rw [scenario_results s nm _ htk]
      constructor
      · rw [show ohit (some (fold_record (mkBlock s.name s.file s.line)
            ((evs.take n).map Prod.snd))) = (fold_record (mkBlock s.name s.file s.line)
            ((evs.take n).map Prod.snd)).hit_count from rfl]
        rw [fold_record_hit]
        simp [mkBlock]
      · rw [show ototal (some (fold_record (mkBlock s.name s.file s.line)
            ((evs.take n).map Prod.snd))) = (fold_record (mkBlock s.name s.file s.line)
            ((evs.take n).map Prod.snd)).total_time_ns from rfl]
        rw [fold_record_total]
        simp [mkBlock]
  refine ⟨hmain, ?_⟩
  intro i j hij
  rw [(hmain i).1, (hmain j).1]
  simp only [List.length_take]
  omega

/-- C3 witness. -/
theorem C3_concurrent_get_results_witness :
    (1 ≤ 2) ∧
    ohit (results_at (run 0 (boot "P")
        (call_ops ⟨1, "h.py", 4, "mono"⟩ (([(3, 10), (4, 20)] : List (Nat × Nat)).take 1)))
        0 (skey ⟨1, "h.py", 4, "mono"⟩))
      ≤ ohit (results_at (run 0 (boot "P")
        (call_ops ⟨1, "h.py", 4, "mono"⟩ (([(3, 10), (4, 20)] : List (Nat × Nat)).take 2)))
        0 (skey ⟨1, "h.py", 4, "mono"⟩)) :=
  ⟨by decide,
    (C3_concurrent_get_results ⟨1, "h.py", 4, "mono"⟩ "P" [(3, 10), (4, 20)]).2 1 2
      (by decide)⟩

/-- C4: the merge ignores hitless data — merging a zero-hit thread block is the
identity on the accumulated block (its zero min/max are never taken), merging a
thread table whose blocks all have zero hits leaves the whole accumulated
table unchanged, and a thread registered with no recorded data leaves
`get_results` unchanged. -/
theorem C4_zero_hits_contribute_nothing :
    (∀ acc t : ProfileBlock, t.hit_count = 0 → merge_block acc t = acc) ∧
    (∀ acc tbl : ThreadTable, (∀ kv ∈ tbl, kv.2.hit_count = 0) → merge_table acc tbl = acc) ∧
    (∀ (p : Profiler) (tid : Nat),
      ({ p with threads := p.threads ++ [(tid, [])] } : Profiler).get_results
        = p.get_results) := by
  have hone : ∀ acc t : ProfileBlock, t.hit_count = 0 → merge_block acc t = acc := by
    intro acc t h
    simp [merge_block, h]
  refine ⟨hone, ?_, ?_⟩
  · intro acc tbl h
    induction tbl generalizing acc with
    | nil => rfl
    | cons kv rest ih =>
      have hstep : merge_step acc kv = acc := by
        cases hl : alookup acc kv.1 with
        | some a =>
          simp only [merge_step, hl, hone a kv.2 (h kv (by simp))]
          exact aset_self_of_lookup acc kv.1 a hl
        | none => simp [merge_step, hl, h kv (by simp)]
      calc merge_table acc (kv :: rest)
          = merge_table (merge_step acc kv) rest := by simp [merge_table]
        _ = merge_table acc rest := by rw [hstep]
        _ = acc := ih acc (fun u hu => h u (by simp [hu]))
  · intro p tid
    show (p.threads ++ [(tid, [])]).foldl
        (fun (acc : ThreadTable) (t : Nat × ThreadTable) => merge_table acc t.2)
        (init_blocks { p with threads := p.threads ++ [(tid, [])] }) = _
    rw [show init_blocks { p with threads := p.threads ++ [(tid, [])] }
        = init_blocks p from rfl]
    rw [List.foldl_append]
    rfl

/-- C4 witness. -/
theorem C4_zero_hits_contribute_nothing_witness :
    ((⟨"m", "f.py", 1, 0, 0, 0, 0⟩ : ProfileBlock).hit_count = 0) ∧
    merge_block ⟨"m", "f.py", 1, 2, 10, 3, 7⟩ ⟨"m", "f.py", 1, 0, 0, 0, 0⟩
      = ⟨"m", "f.py", 1, 2, 10, 3, 7⟩ :=
  ⟨by decide, C4_zero_hits_contribute_nothing.1 ⟨"m", "f.py", 1, 2, 10, 3, 7⟩
    ⟨"m", "f.py", 1, 0, 0, 0, 0⟩ (by decide)⟩

theorem run_calls_global_off (s : CallSite) (st : Registry) (evs : List (Nat × Nat))
    (h : st.global_enabled = false) : run 0 st (call_ops s evs) = st := by
  induction evs with
  | nil => rfl
  | cons e rest ih =>
    have hrun : run 0 st (call_ops s (e :: rest))
        = run 0 (tracked_call st 0 s e.1 e.2) (call_ops s rest) := by
      simp [call_ops, run, apply_op]
    rw [hrun, tracked_call_global_off st 0 s e.1 e.2 h]
    exact ih

theorem scenario_hit (s : CallSite) (nm : String) (evs : List (Nat × Nat)) :
    ohit (results_at (run 0 (boot nm) (call_ops s evs)) 0 (skey s)) = evs.length := by
  by_cases htk : evs = []
  · rw [htk, show call_ops s [] = [] from rfl, run_nil, results_at_boot]
    simp [ohit]
  · rw [scenario_results s nm _ htk]
    rw [show ohit (some (fold_record (mkBlock s.name s.file s.line)
        (evs.map Prod.snd))) = (fold_record (mkBlock s.name s.file s.line)
        (evs.map Prod.snd)).hit_count from rfl]
    rw [fold_record_hit]
    simp [mkBlock]

/-- C5: profiling gates never affect the wrapped computation. With the
process-wide gate disabled, an instrumented call returns the body's value and
leaves the whole engine state untouched — a run of calls during the disabled
window records zero blocks — and an already-cached site whose track or
instance gate is off likewise returns the value with no state change at all
(`record` is never invoked). Re-enabling the process-wide gate restores
recording for subsequent calls. -/
theorem C5_gates_skip_recording_only {α : Type} :
    (∀ (st : Registry) (pid : Nat) (s : CallSite) (tid d : Nat) (body : α),
      st.global_enabled = false →
      tracked_call_value st pid s tid d body = (body, st)) ∧
    (∀ (st : Registry) (pid : Nat) (s : CallSite) (tid d q0 i : Nat) (p : Profiler)
      (body : α),
      alookup st.cache s = some (q0, i) → alookup st.profilers q0 = some p →
      (p.is_track_enabled s.track && p.started) = false →
      tracked_call_value st pid s tid d body = (body, st)) ∧
    (∀ (s : CallSite) (nm : String) (evs1 evs2 : List (Nat × Nat)),
      run 0 (set_global_enabled (boot nm) false) (call_ops s evs1)
        = set_global_enabled (boot nm) false ∧
      (∃ p, alookup (set_global_enabled (boot nm) false).profilers 0 = some p ∧
        p.get_results = [] ∧ tracks_of p.get_results = []) ∧
      set_global_enabled (set_global_enabled (boot nm) false) true = boot nm ∧
      ohit (results_at (run 0 (boot nm) (call_ops s evs2)) 0 (skey s)) = evs2.length) := by
  refine ⟨?_, ?_, ?_⟩
  · intro st pid s tid d body h
    simp [tracked_call_value, tracked_call_global_off st pid s tid d h]
  · intro st pid s tid d q0 i p body hc hp hgate
    simp [tracked_call_value, tracked_call_cached_skip st pid s tid d q0 i p hc hp hgate]
  · intro s nm evs1 evs2
    refine ⟨run_calls_global_off s _ evs1 rfl, ⟨mkProfiler nm, rfl, rfl, rfl⟩, rfl,
      scenario_hit s nm evs2⟩

/-- C5 witness. -/
theorem C5_gates_skip_recording_only_witness :
    ((set_global_enabled (boot "P") false).global_enabled = false) ∧
    tracked_call_value (set_global_enabled (boot "P") false) 0
        ⟨0, "f.py", 2, "off"⟩ 1 5 (42 : Nat)
      = (42, set_global_enabled (boot "P") false) :=
  ⟨rfl, (C5_gates_skip_recording_only (α := Nat)).1 (set_global_enabled (boot "P") false) 0
    ⟨0, "f.py", 2, "off"⟩ 1 5 42 rfl⟩

/-- C10: the two disabled states are not symmetric. A call under a disabled
track gate still registers its block, which appears in the results with
`hit_count = 0` and its track present; a call under the disabled process-wide
gate registers nothing — the state is untouched and the results contain no
tracks at all. -/
theorem C10_disable_asymmetry (s : CallSite) (nm : String) (tid d : Nat) :
    (tracked_call (set_global_enabled (boot nm) false) 0 s tid d
        = set_global_enabled (boot nm) false ∧
      ∃ p, alookup (set_global_enabled (boot nm) false).profilers 0 = some p ∧
        p.get_results = [] ∧ tracks_of p.get_results = []) ∧
    (∃ p, alookup (tracked_call (run 0 (boot nm) [Op.setTrack s.track false]) 0 s
          tid d).profilers 0 = some p ∧
      p.get_results = [(skey s, mkBlock s.name s.file s.line)] ∧
      tracks_of p.get_results = [s.track] ∧
      ohit (alookup p.get_results (skey s)) = 0) := by
  constructor
  · exact ⟨tracked_call_global_off _ 0 s tid d rfl, mkProfiler nm, rfl, rfl, rfl⟩
  · -- the run applies the track toggle to the fresh profiler
    have hst1 : run 0 (boot nm) [Op.setTrack s.track false]
        = { boot nm with
            profilers := [(0, (mkProfiler nm).set_track_enabled s.track false)] } := by
      show upd_profiler (boot nm) 0 (fun p => p.set_track_enabled s.track false) = _
      rw [upd_profiler]
      rw [show alookup (boot nm).profilers 0 = some (mkProfiler nm) from rfl]
      rfl
    set p0 := (mkProfiler nm).set_track_enabled s.track false with hp0
    have hc : alookup ({ boot nm with profilers := [(0, p0)] } : Registry).cache s
        = none := rfl
    have hp : alookup ({ boot nm with profilers := [(0, p0)] } : Registry).profilers 0
        = some p0 := by simp [alookup]
    have hgate : (p0.is_track_enabled s.track && p0.started) = false := by
      simp [hp0, Profiler.is_track_enabled, Profiler.set_track_enabled, mkProfiler,
        alookup_aset_self]
    have hcall := tracked_call_register_skip { boot nm with profilers := [(0, p0)] }
      0 s tid d p0 rfl hc hp hgate
    rw [hst1, hcall]
    refine ⟨(register_block p0 s).2, ?_, ?_, ?_, ?_⟩
    · exact alookup_aset_self _ _ _
    · show init_blocks (register_block p0 s).2 = _
      simp [init_blocks, register_block, hp0, Profiler.set_track_enabled, mkProfiler,
        skey, smeta]
    · show tracks_of (init_blocks (register_block p0 s).2) = _
      simp [init_blocks, register_block, hp0, Profiler.set_track_enabled, mkProfiler,
        tracks_of, skey]
    · show ohit (alookup (init_blocks (register_block p0 s).2) (skey s)) = 0
      rw [alookup_init_blocks]
      simp [register_block, hp0, Profiler.set_track_enabled, mkProfiler, skey,
        alookup_aset_self, ohit, mkBlock]

theorem skey_ne (sa sb : CallSite) (h : sa.track ≠ sb.track) : skey sa ≠ skey sb := by
  simp [skey, Prod.ext_iff]
  intro hc
  exact absurd hc h

theorem STwo_step_a (sa sb : CallSite) (E : List (Nat × Bool)) (st : Registry)
    (hdiff : sa.track ≠ sb.track) (h : STwo sa sb E st)
    (hE : (alookup E sa.track).getD true = true) (tid d : Nat) :
    STwo sa sb E (tracked_call st 0 sa tid d) ∧
    results_at (tracked_call st 0 sa tid d) 0 (skey sa)
      = ropt (smeta sa) d (results_at st 0 (skey sa)) ∧
    ∀ q, q ≠ skey sa →
      results_at (tracked_call st 0 sa tid d) 0 q = results_at st 0 q := by
  obtain ⟨hg, hcache, p, hp, hst, hte, hblocks, hWf, hsupp⟩ := h
  have hc : alookup st.cache sa = some (0, 0) := by
    rw [hcache]
    simp
  have htrk : p.is_track_enabled sa.track = true := by
    rw [Profiler.is_track_enabled, hte]
    exact hE
  have hcall := tracked_call_cached_pass st 0 sa tid d 0 0 p hg hc hp htrk hst
  have hbm : block_meta p (skey sa) = smeta sa := by
    simp [block_meta, hblocks]
  refine ⟨⟨by rw [hcall]; exact hg, by rw [hcall]; exact hcache,
    p.record tid sa.track 0 d, ?_, by simp [hst], by simp [hte], by simp [hblocks],
    WfT_record p tid sa.track 0 d hWf, ?_⟩, ?_, ?_⟩
  · rw [hcall]
    exact alookup_aset_self st.profilers 0 _
  · intro t ht q hqa hqb
    rw [record_threads] at ht
    rcases mem_aset _ _ _ t ht with hmem | rfl
    · exact hsupp t hmem q hqa hqb
    · rw [alookup_table_record_ne _ _ _ _ _ (by exact hqa)]
      cases hl : alookup p.threads tid with
      | some tbl0 => simpa [hl] using hsupp (tid, tbl0) (mem_of_alookup _ _ _ hl) q hqa hqb
      | none => simp [hl]
  · rw [hcall]
    simp only [results_at, alookup_aset_self, hp]
    rw [show skey sa = (sa.track, 0) from rfl,
      get_results_record_self p tid sa.track 0 d hWf,
      show block_meta p (sa.track, 0) = smeta sa from hbm]
  · intro q hq
    rw [hcall]
    simp only [results_at, alookup_aset_self, hp]
    exact get_results_record_frame p tid sa.track 0 d q hWf (by simpa [skey] using hq)

theorem STwo_step_b (sa sb : CallSite) (E : List (Nat × Bool)) (st : Registry)
    (hdiff : sa.track ≠ sb.track) (h : STwo sa sb E st)
    (hE : (alookup E sb.track).getD true = true) (tid d : Nat) :
    STwo sa sb E (tracked_call st 0 sb tid d) ∧
    results_at (tracked_call st 0 sb tid d) 0 (skey sb)
      = ropt (smeta sb) d (results_at st 0 (skey sb)) ∧
    ∀ q, q ≠ skey sb →
      results_at (tracked_call st 0 sb tid d) 0 q = results_at st 0 q := by
  obtain ⟨hg, hcache, p, hp, hst, hte, hblocks, hWf, hsupp⟩ := h
  have hsne : sb ≠ sa := by
    intro hEq
    exact hdiff (by rw [hEq])
  have hkne : skey sb ≠ skey sa := (skey_ne sb sa (fun hc => hdiff hc.symm))
  have hc : alookup st.cache sb = some (0, 0) := by
    rw [hcache, alookup_cons_ne _ _ _ _ hsne]
    simp
  have htrk : p.is_track_enabled sb.track = true := by
    rw [Profiler.is_track_enabled, hte]
    exact hE
  have hcall := tracked_call_cached_pass st 0 sb tid d 0 0 p hg hc hp htrk hst
  have hbm : block_meta p (skey sb) = smeta sb := by
    simp only [block_meta, hblocks]
    rw [alookup_cons_ne _ _ _ _ hkne]
    simp
  refine ⟨⟨by rw [hcall]; exact hg, by rw [hcall]; exact hcache,
    p.record tid sb.track 0 d, ?_, by simp [hst], by simp [hte], by simp [hblocks],
    WfT_record p tid sb.track 0 d hWf, ?_⟩, ?_, ?_⟩
  · rw [hcall]
    exact alookup_aset_self st.profilers 0 _
  · intro t ht q hqa hqb
    rw [record_threads] at ht
    rcases mem_aset _ _ _ t ht with hmem | rfl
    · exact hsupp t hmem q hqa hqb
    · rw [alookup_table_record_ne _ _ _ _ _ (by exact hqb)]
      cases hl : alookup p.threads tid with
      | some tbl0 => simpa [hl] using hsupp (tid, tbl0) (mem_of_alookup _ _ _ hl) q hqa hqb
      | none => simp [hl]
  · rw [hcall]
    simp only [results_at, alookup_aset_self, hp]
    rw [show skey sb = (sb.track, 0) from rfl,
      get_results_record_self p tid sb.track 0 d hWf,
      show block_meta p (sb.track, 0) = smeta sb from hbm]
  · intro q hq
    rw [hcall]
    simp only [results_at, alookup_aset_self, hp]
    exact get_results_record_frame p tid sb.track 0 d q hWf (by simpa [skey] using hq)

theorem STwo_step_skip_b (sa sb : CallSite) (E : List (Nat × Bool)) (st : Registry)
    (hdiff : sa.track ≠ sb.track) (h : STwo sa sb E st)
    (hE : (alookup E sb.track).getD true = false) (tid d : Nat) :
    tracked_call st 0 sb tid d = st := by
  obtain ⟨hg, hcache, p, hp, hst, hte, hblocks, hWf, hsupp⟩ := h
  have hsne : sb ≠ sa := by
    intro hEq
    exact hdiff (by rw [hEq])
  have hc : alookup st.cache sb = some (0, 0) := by
    rw [hcache, alookup_cons_ne _ _ _ _ hsne]
    simp
  have hgate : (p.is_track_enabled sb.track && p.started) = false := by
    rw [Profiler.is_track_enabled, hte, hE]
    simp
  exact tracked_call_cached_skip st 0 sb tid d 0 0 p hc hp hgate

theorem STwo_toggle (sa sb : CallSite) (E : List (Nat × Bool)) (st : Registry)
    (h : STwo sa sb E st) (t : Nat) (e : Bool) :
    STwo sa sb (aset E t e) (apply_op 0 st (Op.setTrack t e)) ∧
    ∀ q, results_at (apply_op 0 st (Op.setTrack t e)) 0 q = results_at st 0 q := by
  obtain ⟨hg, hcache, p, hp, hst, hte, hblocks, hWf, hsupp⟩ := h
  have hup : apply_op 0 st (Op.setTrack t e)
      = { st with profilers := aset st.profilers 0 (p.set_track_enabled t e) } := by
    show upd_profiler st 0 (fun p => p.set_track_enabled t e) = _
    rw [upd_profiler, hp]
  have hWf2 : WfT (p.set_track_enabled t e) := by
    refine ⟨hWf.1, ?_⟩
    intro u hu k
    have : block_meta (p.set_track_enabled t e) k = block_meta p k := rfl
    rw [this]
    exact hWf.2 u hu k
  refine ⟨⟨by rw [hup]; exact hg, by rw [hup]; exact hcache,
    p.set_track_enabled t e, ?_, by simp [Profiler.set_track_enabled, hst],
    by simp [Profiler.set_track_enabled, hte], by simp [Profiler.set_track_enabled, hblocks],
    hWf2, ?_⟩, ?_⟩
  · rw [hup]
    exact alookup_aset_self st.profilers 0 _
  · intro u hu q hqa hqb
    exact hsupp u hu q hqa hqb
  · intro q
    rw [hup]
    simp only [results_at, alookup_aset_self, hp, set_track_enabled_get_results]

theorem run_cons (pid : Nat) (st : Registry) (op : Op) (ops : List Op) :
    run pid st (op :: ops) = run pid (apply_op pid st op) ops := rfl

theorem run_append (pid : Nat) (st : Registry) (l1 l2 : List Op) :
    run pid st (l1 ++ l2) = run pid (run pid st l1) l2 :=
  List.foldl_append _ _ _ _

theorem STwo_run_a (sa sb : CallSite) (E : List (Nat × Bool)) (st : Registry)
    (hdiff : sa.track ≠ sb.track) (h : STwo sa sb E st)
    (hE : (alookup E sa.track).getD true = true) (evs : List (Nat × Nat)) :
    STwo sa sb E (run 0 st (call_ops sa evs)) ∧
    results_at (run 0 st (call_ops sa evs)) 0 (skey sa)
      = ropt_fold (smeta sa) (results_at st 0 (skey sa)) (evs.map Prod.snd) ∧
    ∀ q, q ≠ skey sa →
      results_at (run 0 st (call_ops sa evs)) 0 q = results_at st 0 q := by
  induction evs generalizing st with
  | nil => exact ⟨h, rfl, fun q _ => rfl⟩
  | cons e rest ih =>
    obtain ⟨h1, h2, h3⟩ := STwo_step_a sa sb E st hdiff h hE e.1 e.2
    have hrun : run 0 st (call_ops sa (e :: rest))
        = run 0 (tracked_call st 0 sa e.1 e.2) (call_ops sa rest) := by
      simp [call_ops, run, apply_op]
    obtain ⟨ih1, ih2, ih3⟩ := ih _ h1
    refine ⟨by rw [hrun]; exact ih1, ?_, ?_⟩
    · rw [hrun, ih2, h2, List.map_cons, ropt_fold_cons]
    · intro q hq
      rw [hrun, ih3 q hq, h3 q hq]

theorem STwo_run_b (sa sb : CallSite) (E : List (Nat × Bool)) (st : Registry)
    (hdiff : sa.track ≠ sb.track) (h : STwo sa sb E st)
    (hE : (alookup E sb.track).getD true = true) (evs : List (Nat × Nat)) :
    STwo sa sb E (run 0 st (call_ops sb evs)) ∧
    results_at (run 0 st (call_ops sb evs)) 0 (skey sb)
      = ropt_fold (smeta sb) (results_at st 0 (skey sb)) (evs.map Prod.snd) ∧
    ∀ q, q ≠ skey sb →
      results_at (run 0 st (call_ops sb evs)) 0 q = results_at st 0 q := by
  induction evs generalizing st with
  | nil => exact ⟨h, rfl, fun q _ => rfl⟩
  | cons e rest ih =>
    obtain ⟨h1, h2, h3⟩ := STwo_step_b sa sb E st hdiff h hE e.1 e.2
    have hrun : run 0 st (call_ops sb (e :: rest))
        = run 0 (tracked_call st 0 sb e.1 e.2) (call_ops sb rest) := by
      simp [call_ops, run, apply_op]
    obtain ⟨ih1, ih2, ih3⟩ := ih _ h1
    refine ⟨by rw [hrun]; exact ih1, ?_, ?_⟩
    · rw [hrun, ih2, h2, List.map_cons, ropt_fold_cons]
    · intro q hq
      rw [hrun, ih3 q hq, h3 q hq]

theorem STwo_run_skip_b (sa sb : CallSite) (E : List (Nat × Bool)) (st : Registry)
    (hdiff : sa.track ≠ sb.track) (h : STwo sa sb E st)
    (hE : (alookup E sb.track).getD true = false) (evs : List (Nat × Nat)) :
    run 0 st (call_ops sb evs) = st := by
  induction evs with
  | nil => rfl
  | cons e rest ih =>
    have hrun : run 0 st (call_ops sb (e :: rest))
        = run 0 (tracked_call st 0 sb e.1 e.2) (call_ops sb rest) := by
      simp [call_ops, run, apply_op]
    rw [hrun, STwo_step_skip_b sa sb E st hdiff h hE e.1 e.2]
    exact ih

theorem STwo_boot (sa sb : CallSite) (nm : String) (hdiff : sa.track ≠ sb.track)
    (tid1 d1 tid2 d2 : Nat) :
    STwo sa sb [] (tracked_call (tracked_call (boot nm) 0 sa tid1 d1) 0 sb tid2 d2) ∧
    results_at (tracked_call (tracked_call (boot nm) 0 sa tid1 d1) 0 sb tid2 d2) 0 (skey sa)
      = some ((mkBlock sa.name sa.file sa.line).record_time d1) ∧
    results_at (tracked_call (tracked_call (boot nm) 0 sa tid1 d1) 0 sb tid2 d2) 0 (skey sb)
      = some ((mkBlock sb.name sb.file sb.line).record_time d2) := by
  obtain ⟨hS1, hres1⟩ := SOne_boot sa nm tid1 d1
  obtain ⟨hg, hcache, p, hp, hst, hte, hblocks, hnext, hWf, hsupp⟩ := hS1
  have hsne : sb ≠ sa := fun hEq => hdiff (by rw [hEq])
  have htne : sb.track ≠ sa.track := fun hc => hdiff hc.symm
  have hkba : skey sb ≠ skey sa := skey_ne sb sa htne
  have hkab : skey sa ≠ skey sb := skey_ne sa sb hdiff
  have hc : alookup (tracked_call (boot nm) 0 sa tid1 d1).cache sb = none := by
    rw [hcache, alookup_cons_ne _ _ _ _ hsne, alookup_nil]
  have htrk : p.is_track_enabled sb.track = true := is_track_enabled_nil p hte sb.track
  have hcall := tracked_call_register_pass (tracked_call (boot nm) 0 sa tid1 d1) 0 sb
    tid2 d2 p hg hc hp htrk hst
  have hidx : (alookup p.next_idx sb.track).getD 0 = 0 := by
    rw [hnext, alookup_cons_ne _ _ _ _ htne, alookup_nil]
    rfl
  rw [hidx] at hcall
  have hsupp2 : ∀ t ∈ p.threads,
      alookup t.2 (sb.track, (alookup p.next_idx sb.track).getD 0) = none := by
    intro t ht
    rw [hidx]
    exact hsupp t ht (sb.track, 0) (by exact hkba)
  have hWf1 : WfT (register_block p sb).2 := WfT_register p sb hWf hsupp2
  refine ⟨⟨by rw [hcall]; exact hg, ?_, ((register_block p sb).2).record tid2 sb.track 0 d2,
    ?_, by simp [hst], by simp [hte], ?_, WfT_record _ tid2 sb.track 0 d2 hWf1, ?_⟩,
    ?_, ?_⟩
  · rw [hcall]
    show aset (tracked_call (boot nm) 0 sa tid1 d1).cache sb (0, 0) = _
    rw [hcache, aset_cons_ne _ _ _ _ _ hsne, aset_nil]
  · rw [hcall]
    exact alookup_aset_self _ _ _
  · show aset p.blocks (sb.track, (alookup p.next_idx sb.track).getD 0)
        (sb.name, sb.file, sb.line) = _
    rw [hidx, hblocks, aset_cons_ne _ _ _ _ _ (by exact hkba), aset_nil]
    rfl
  · intro t ht q hqa hqb
    rw [record_threads, register_threads] at ht
    rcases mem_aset _ _ _ t ht with hmem | rfl
    · exact hsupp t hmem q hqa
    · rw [alookup_table_record_ne _ _ _ _ _ (by exact hqb)]
      cases hl : alookup p.threads tid2 with
      | some tbl0 => simpa [hl] using hsupp (tid2, tbl0) (mem_of_alookup _ _ _ hl) q hqa
      | none => simp [hl]
  · rw [hcall]
    simp only [results_at, alookup_aset_self]
    have hfr := get_results_register_record_frame p sb tid2 d2 (skey sa) hWf hsupp2
      (by rw [hidx]; exact hkab)
    rw [hidx] at hfr
    rw [hfr]
    have hres1b : results_at (tracked_call (boot nm) 0 sa tid1 d1) 0 (skey sa)
        = alookup p.get_results (skey sa) := by
      simp only [results_at, hp]
    rw [← hres1b, hres1]
  · rw [hcall]
    simp only [results_at, alookup_aset_self]
    have hself := get_results_register_record_self p sb tid2 d2 hWf hsupp2
    rw [hidx] at hself
    exact hself

theorem ohit_ropt (m : BlockMeta) (d : Nat) (o : Option ProfileBlock) :
    ohit (ropt m d o) = ohit o + 1 := by
  cases o with
  | none => simp [ropt, ohit, mkBlock]
  | some b => simp [ropt, ohit]

theorem ohit_ropt_fold (m : BlockMeta) (o : Option ProfileBlock) (ds : List Nat) :
    ohit (ropt_fold m o ds) = ohit o + ds.length := by
  induction ds generalizing o with
  | nil => simp [ropt_fold]
  | cons d rest ih =>
    rw [ropt_fold_cons, ih, ohit_ropt]
    simp
    omega

/-- C6: disabling one track leaves the other track's recording unaffected, and
re-enabling resumes it — the disabled track's block ends with hits before
disabling plus hits after re-enabling (zero during the window), while the other
track's block counts every one of its calls across all three phases. -/
theorem C6_per_track_toggle (sa sb : CallSite) (nm : String)
    (hdiff : sa.track ≠ sb.track) (tid1 d1 tid2 d2 : Nat)
    (as1 bs1 as2 bs2 as3 bs3 : List (Nat × Nat)) :
    ohit (results_at (run 0 (boot nm)
        (c6_ops sa sb tid1 d1 tid2 d2 as1 bs1 as2 bs2 as3 bs3)) 0 (skey sa))
      = 1 + as1.length + as2.length + as3.length ∧
    ohit (results_at (run 0 (boot nm)
        (c6_ops sa sb tid1 d1 tid2 d2 as1 bs1 as2 bs2 as3 bs3)) 0 (skey sb))
      = 1 + bs1.length + bs3.length := by
  have hkba : skey sb ≠ skey sa := skey_ne sb sa (fun hc => hdiff hc.symm)
  have hkab : skey sa ≠ skey sb := skey_ne sa sb hdiff
  -- warm-up
  obtain ⟨h3, ra3, rb3⟩ := STwo_boot sa sb nm hdiff tid1 d1 tid2 d2
  have hops : run 0 (boot nm) (c6_ops sa sb tid1 d1 tid2 d2 as1 bs1 as2 bs2 as3 bs3)
      = run 0 (tracked_call (tracked_call (boot nm) 0 sa tid1 d1) 0 sb tid2 d2)
          (call_ops sa as1 ++ call_ops sb bs1 ++ [Op.setTrack sb.track false] ++
            call_ops sa as2 ++ call_ops sb bs2 ++ [Op.setTrack sb.track true] ++
            call_ops sa as3 ++ call_ops sb bs3) := rfl
  set stW := tracked_call (tracked_call (boot nm) 0 sa tid1 d1) 0 sb tid2 d2 with hstW
  -- phase 1a
  obtain ⟨h4, ra4, fr4⟩ := STwo_run_a sa sb [] stW hdiff h3 rfl as1
  set st4 := run 0 stW (call_ops sa as1) with hst4
  -- phase 1b
  obtain ⟨h5, rb5, fr5⟩ := STwo_run_b sa sb [] st4 hdiff h4 rfl bs1
  set st5 := run 0 st4 (call_ops sb bs1) with hst5
  -- disable sb's track
  obtain ⟨h6, fr6⟩ := STwo_toggle sa sb [] st5 h5 sb.track false
  set st6 := apply_op 0 st5 (Op.setTrack sb.track false) with hst6
  have hE1a : (alookup (aset ([] : List (Nat × Bool)) sb.track false) sa.track).getD true
      = true := by
    rw [aset_nil, alookup_cons_ne _ _ _ _ hdiff, alookup_nil]
    rfl
  have hE1b : (alookup (aset ([] : List (Nat × Bool)) sb.track false) sb.track).getD true
      = false := by
    rw [aset_nil]
    simp
  -- phase 2a
  obtain ⟨h7, ra7, fr7⟩ := STwo_run_a sa sb _ st6 hdiff h6 hE1a as2
  set st7 := run 0 st6 (call_ops sa as2) with hst7
  -- phase 2b is skipped entirely
  have hskip : run 0 st7 (call_ops sb bs2) = st7 :=
    STwo_run_skip_b sa sb _ st7 hdiff h7 hE1b bs2
  -- re-enable sb's track
  obtain ⟨h9, fr9⟩ := STwo_toggle sa sb _ st7 h7 sb.track true
  set st9 := apply_op 0 st7 (Op.setTrack sb.track true) with hst9
  have hE2a : (alookup (aset (aset ([] : List (Nat × Bool)) sb.track false) sb.track true)
      sa.track).getD true = true := by
    rw [aset_nil, aset_cons_self, alookup_cons_ne _ _ _ _ hdiff, alookup_nil]
    rfl
  have hE2b : (alookup (aset (aset ([] : List (Nat × Bool)) sb.track false) sb.track true)
      sb.track).getD true = true := by
    rw [aset_nil, aset_cons_self]
    simp
  -- phase 3a
  obtain ⟨h10, ra10, fr10⟩ := STwo_run_a sa sb _ st9 hdiff h9 hE2a as3
  set st10 := run 0 st9 (call_ops sa as3) with hst10
  -- phase 3b
  obtain ⟨h11, rb11, fr11⟩ := STwo_run_b sa sb _ st10 hdiff h10 hE2b bs3
  set st11 := run 0 st10 (call_ops sb bs3) with hst11
  have hfinal : run 0 (boot nm) (c6_ops sa sb tid1 d1 tid2 d2 as1 bs1 as2 bs2 as3 bs3)
      = st11 := by
    rw [hops]
    rw [show call_ops sa as1 ++ call_ops sb bs1 ++ [Op.setTrack sb.track false] ++
        call_ops sa as2 ++ call_ops sb bs2 ++ [Op.setTrack sb.track true] ++
        call_ops sa as3 ++ call_ops sb bs3
      = call_ops sa as1 ++ (call_ops sb bs1 ++ ([Op.setTrack sb.track false] ++
        (call_ops sa as2 ++ (call_ops sb bs2 ++ ([Op.setTrack sb.track true] ++
        (call_ops sa as3 ++ call_ops sb bs3)))))) by simp [List.append_assoc]]
    rw [run_append, run_append, run_append, run_append, run_append, run_append,
      run_append]
    rw [← hst4, ← hst5]
    rw [show run 0 st5 [Op.setTrack sb.track false]
        = apply_op 0 st5 (Op.setTrack sb.track false) from rfl, ← hst6, ← hst7, hskip]
    rw [show run 0 st7 [Op.setTrack sb.track true]
        = apply_op 0 st7 (Op.setTrack sb.track true) from rfl, ← hst9, ← hst10, ← hst11]
  rw [hfinal]
  constructor
  · -- the a-side block counts every a-call
    rw [fr11 _ hkab, ra10, fr9 _, ra7, fr6 _, fr5 _ hkab, ra4, ra3]
    rw [ohit_ropt_fold, ohit_ropt_fold, ohit_ropt_fold]
    simp [ohit, mkBlock]
  · -- the b-side block counts phase 1 and phase 3 only
    rw [rb11, fr10 _ hkba, fr9 _, fr7 _ hkba, fr6 _, rb5, fr4 _ hkba, rb3]
    rw [ohit_ropt_fold, ohit_ropt_fold]
    simp [ohit, mkBlock]

/-- C6 witness. -/
theorem C6_per_track_toggle_witness :
    ((0 : Nat) ≠ 1) ∧
    (ohit (results_at (run 0 (boot "P")
        (c6_ops ⟨0, "a.py", 1, "fa"⟩ ⟨1, "b.py", 2, "fb"⟩ 5 10 6 20
          [(5, 30)] [(6, 40)] [(5, 50)] [(6, 60)] [(5, 70)] [(6, 80)])) 0
        (skey ⟨0, "a.py", 1, "fa"⟩))
      = 1 + 1 + 1 + 1 ∧
    ohit (results_at (run 0 (boot "P")
        (c6_ops ⟨0, "a.py", 1, "fa"⟩ ⟨1, "b.py", 2, "fb"⟩ 5 10 6 20
          [(5, 30)] [(6, 40)] [(5, 50)] [(6, 60)] [(5, 70)] [(6, 80)])) 0
        (skey ⟨1, "b.py", 2, "fb"⟩))
      = 1 + 1 + 1) :=
  ⟨by decide, C6_per_track_toggle ⟨0, "a.py", 1, "fa"⟩ ⟨1, "b.py", 2, "fb"⟩ "P"
    (by decide) 5 10 6 20 [(5, 30)] [(6, 40)] [(5, 50)] [(6, 60)] [(5, 70)] [(6, 80)]⟩

theorem BlockReach_mul_invariant (b : ProfileBlock) (ds : List Nat)
    (h : BlockReach b ds) :
    b.hit_count = ds.length ∧ b.total_time_ns = ds.sum ∧
    b.min_time_ns * b.hit_count ≤ b.total_time_ns ∧
    b.total_time_ns ≤ b.max_time_ns * b.hit_count := by
  induction h with
  | fresh nme fl ln => simp [mkBlock]
  | @update b0 ds0 d _ ih =>
    obtain ⟨ih1, ih2, ih3, ih4⟩ := ih
    by_cases h0 : b0.hit_count = 0
    · have hds : ds0 = [] := List.eq_nil_of_length_eq_zero (by omega)
      subst hds
      have htz : b0.total_time_ns = 0 := ih2
      have hm : (b0.record_time d).min_time_ns = d := by
        simp [ProfileBlock.record_time, h0]
      have hM : (b0.record_time d).max_time_ns = max b0.max_time_ns d := by
        simp [ProfileBlock.record_time]
      refine ⟨?_, ?_, ?_, ?_⟩
      · rw [record_time_hit, ih1]
        rfl
      · rw [record_time_total, htz]
        simp
      · rw [hm, record_time_hit, record_time_total, htz, h0]
        omega
      · rw [hM, record_time_hit, record_time_total, htz, h0]
        omega
    · have hmin : (b0.record_time d).min_time_ns = min b0.min_time_ns d := by
        simp [ProfileBlock.record_time, h0]
      have hmax : (b0.record_time d).max_time_ns = max b0.max_time_ns d := by
        simp [ProfileBlock.record_time]
      refine ⟨by rw [record_time_hit, ih1]; rfl,
        by rw [record_time_total, ih2]; simp [Nat.add_comm], ?_, ?_⟩
      · rw [hmin, record_time_hit, record_time_total]
        have h5 : min b0.min_time_ns d * (b0.hit_count + 1)
            = min b0.min_time_ns d * b0.hit_count + min b0.min_time_ns d := by ring
        have h6 : min b0.min_time_ns d * b0.hit_count
            ≤ b0.min_time_ns * b0.hit_count :=
          Nat.mul_le_mul_right _ (min_le_left _ _)
        have h7 : min b0.min_time_ns d ≤ d := min_le_right _ _
        omega
      · rw [hmax, record_time_hit, record_time_total]
        have h5 : max b0.max_time_ns d * (b0.hit_count + 1)
            = max b0.max_time_ns d * b0.hit_count + max b0.max_time_ns d := by ring
        have h6 : b0.max_time_ns * b0.hit_count
            ≤ max b0.max_time_ns d * b0.hit_count :=
          Nat.mul_le_mul_right _ (le_max_left _ _)
        have h7 : d ≤ max b0.max_time_ns d := le_max_right _ _
        omega
  | @merge a as b0 bs _ _ iha ihb =>
    obtain ⟨ha1, ha2, ha3, ha4⟩ := iha
    obtain ⟨hb1, hb2, hb3, hb4⟩ := ihb
    by_cases hbh : b0.hit_count = 0
    · have hbs : bs = [] := List.eq_nil_of_length_eq_zero (by omega)
      subst hbs
      simp [merge_block, hbh, List.append_nil]
      exact ⟨ha1, ha2, ha3, ha4⟩
    · by_cases hah : a.hit_count = 0
      · have has : as = [] := List.eq_nil_of_length_eq_zero (by omega)
        subst has
        simp [merge_block, hbh, hah, List.nil_append]
        exact ⟨hb1, hb2, hb3, hb4⟩
      · have hsimp : merge_block a b0 =
            { a with
              hit_count := a.hit_count + b0.hit_count
              total_time_ns := a.total_time_ns + b0.total_time_ns
              min_time_ns := min a.min_time_ns b0.min_time_ns
              max_time_ns := max a.max_time_ns b0.max_time_ns } := by
          simp [merge_block, hbh, hah]
        rw [hsimp]
        refine ⟨by simp [ha1, hb1], by simp [ha2, hb2], ?_, ?_⟩
        · show min a.min_time_ns b0.min_time_ns * (a.hit_count + b0.hit_count)
            ≤ a.total_time_ns + b0.total_time_ns
          have h5 : min a.min_time_ns b0.min_time_ns * (a.hit_count + b0.hit_count)
              = min a.min_time_ns b0.min_time_ns * a.hit_count
                + min a.min_time_ns b0.min_time_ns * b0.hit_count := by ring
          have h6 : min a.min_time_ns b0.min_time_ns * a.hit_count
              ≤ a.min_time_ns * a.hit_count :=
            Nat.mul_le_mul_right _ (min_le_left _ _)
          have h7 : min a.min_time_ns b0.min_time_ns * b0.hit_count
              ≤ b0.min_time_ns * b0.hit_count :=
            Nat.mul_le_mul_right _ (min_le_right _ _)
          omega
        · show a.total_time_ns + b0.total_time_ns
            ≤ max a.max_time_ns b0.max_time_ns * (a.hit_count + b0.hit_count)
          have h5 : max a.max_time_ns b0.max_time_ns * (a.hit_count + b0.hit_count)
              = max a.max_time_ns b0.max_time_ns * a.hit_count
                + max a.max_time_ns b0.max_time_ns * b0.hit_count := by ring
          have h6 : a.max_time_ns * a.hit_count
              ≤ max a.max_time_ns b0.max_time_ns * a.hit_count :=
            Nat.mul_le_mul_right _ (le_max_left _ _)
          have h7 : b0.max_time_ns * b0.hit_count
              ≤ max a.max_time_ns b0.max_time_ns * b0.hit_count :=
            Nat.mul_le_mul_right _ (le_max_right _ _)
          omega

/-- C7: after any sequence of recordings and merges, a block's total time is
the sum of all recorded durations, its hit count is their number, and whenever
`hit_count > 0` the average lies between `min_time_ns` and `max_time_ns`. -/
theorem C7_block_invariant (b : ProfileBlock) (ds : List Nat) (h : BlockReach b ds) :
    b.hit_count = ds.length ∧ b.total_time_ns = ds.sum ∧
    (0 < b.hit_count →
      b.min_time_ns ≤ b.total_time_ns / b.hit_count ∧
      b.total_time_ns / b.hit_count ≤ b.max_time_ns) := by
  obtain ⟨h1, h2, h3, h4⟩ := BlockReach_mul_invariant b ds h
  refine ⟨h1, h2, fun hpos => ⟨?_, ?_⟩⟩
  · exact (Nat.le_div_iff_mul_le hpos).mpr h3
  · calc b.total_time_ns / b.hit_count
        ≤ b.max_time_ns * b.hit_count / b.hit_count := Nat.div_le_div_right h4
      _ = b.max_time_ns := Nat.mul_div_cancel _ hpos

/-- C7 witness. -/
theorem C7_block_invariant_witness :
    BlockReach (merge_block ((mkBlock "w" "w.py" 1).record_time 5)
        ((mkBlock "w" "w.py" 1).record_time 9)) [5, 9] ∧
    (merge_block ((mkBlock "w" "w.py" 1).record_time 5)
        ((mkBlock "w" "w.py" 1).record_time 9)).hit_count = ([5, 9] : List Nat).length ∧
    (merge_block ((mkBlock "w" "w.py" 1).record_time 5)
        ((mkBlock "w" "w.py" 1).record_time 9)).total_time_ns = ([5, 9] : List Nat).sum ∧
    (0 < (merge_block ((mkBlock "w" "w.py" 1).record_time 5)
        ((mkBlock "w" "w.py" 1).record_time 9)).hit_count →
      (merge_block ((mkBlock "w" "w.py" 1).record_time 5)
          ((mkBlock "w" "w.py" 1).record_time 9)).min_time_ns
        ≤ (merge_block ((mkBlock "w" "w.py" 1).record_time 5)
            ((mkBlock "w" "w.py" 1).record_time 9)).total_time_ns
          / (merge_block ((mkBlock "w" "w.py" 1).record_time 5)
            ((mkBlock "w" "w.py" 1).record_time 9)).hit_count ∧
      (merge_block ((mkBlock "w" "w.py" 1).record_time 5)
          ((mkBlock "w" "w.py" 1).record_time 9)).total_time_ns
        / (merge_block ((mkBlock "w" "w.py" 1).record_time 5)
            ((mkBlock "w" "w.py" 1).record_time 9)).hit_count
        ≤ (merge_block ((mkBlock "w" "w.py" 1).record_time 5)
            ((mkBlock "w" "w.py" 1).record_time 9)).max_time_ns) :=
  have hreach : BlockReach (merge_block ((mkBlock "w" "w.py" 1).record_time 5)
      ((mkBlock "w" "w.py" 1).record_time 9)) [5, 9] :=
    BlockReach.merge (BlockReach.update 5 (BlockReach.fresh "w" "w.py" 1))
      (BlockReach.update 9 (BlockReach.fresh "w" "w.py" 1))
  ⟨hreach, C7_block_invariant _ _ hreach⟩

/-- C9: the scoped region records the elapsed time `t1 - t0` on every exit
path. The engine state after `block_exit` is the same whether the body returned
normally or raised, the body's outcome is propagated unchanged, and on the
failure path a warm site still gains exactly one hit of the elapsed time. -/
theorem C9_block_records_on_all_exits {ε α : Type} :
    (∀ (st : Registry) (pid : Nat) (s : CallSite) (tid t0 t1 : Nat) (v : α) (e : ε),
      block_exit st pid s tid t0 t1 ((Except.ok v : Except ε α))
          = (Except.ok v, tracked_call st pid s tid (t1 - t0)) ∧
      block_exit st pid s tid t0 t1 ((Except.error e : Except ε α))
          = (Except.error e, tracked_call st pid s tid (t1 - t0))) ∧
    (∀ (s : CallSite) (nm : String) (evs : List (Nat × Nat)) (tid t0 t1 : Nat) (e : ε),
      evs ≠ [] →
      ohit (results_at (@block_exit ε α (run 0 (boot nm) (call_ops s evs)) 0 s tid t0 t1
          (Except.error e)).2 0 (skey s))
        = evs.length + 1) := by
  constructor
  · intro st pid s tid t0 t1 v e
    exact ⟨rfl, rfl⟩
  · intro s nm evs tid t0 t1 e hne
    have hS := scenario_SOne s nm evs hne
    obtain ⟨_, h2, _⟩ := SOne_step s _ hS 0 tid (t1 - t0)
    have hsnd : (@block_exit ε α (run 0 (boot nm) (call_ops s evs)) 0 s tid t0 t1
        (Except.error e)).2
        = tracked_call (run 0 (boot nm) (call_ops s evs)) 0 s tid (t1 - t0) := rfl
    rw [hsnd, h2, ohit_ropt, scenario_hit]

/-- C9 witness. -/
theorem C9_block_records_on_all_exits_witness :
    (([(1, 4)] : List (Nat × Nat)) ≠ []) ∧
    ohit (results_at (@block_exit String Nat
        (run 0 (boot "P") (call_ops ⟨0, "c.py", 8, "scoped"⟩ [(1, 4)])) 0
        ⟨0, "c.py", 8, "scoped"⟩ 2 10 25 (Except.error "boom")).2 0
        (skey ⟨0, "c.py", 8, "scoped"⟩))
      = ([(1, 4)] : List (Nat × Nat)).length + 1 :=
  ⟨by decide, (@C9_block_records_on_all_exits String Nat).2 ⟨0, "c.py", 8, "scoped"⟩ "P"
    [(1, 4)] 2 10 25 "boom" (by decide)⟩

theorem store_write_length (store : List ProfileBlock) (a d : Nat) :
    (store_write store a d).length = store.length := by
  cases h : store[a]? with
  | none => simp [store_write, h]
  | some b => simp [store_write, h]

theorem store_write_get_ne (store : List ProfileBlock) (a d q : Nat) (hne : a ≠ q) :
    (store_write store a d)[q]? = store[q]? := by
  cases h : store[a]? with
  | none => simp [store_write, h]
  | some b => simp [store_write, h, List.getElem?_set_ne hne]

theorem mrecord_frame (ms : MemState) (tid : Nat) (k : Nat × Nat) (meta : BlockMeta)
    (d a : Nat) (hWf : WfAddrs ms) (hlt : a < ms.store.length)
    (hnt : ∀ t ∈ ms.threads, ∀ kv ∈ t.2, kv.2 ≠ a) :
    (mrecord ms tid k meta d).store[a]? = ms.store[a]? ∧
    WfAddrs (mrecord ms tid k meta d) ∧
    a < (mrecord ms tid k meta d).store.length ∧
    (∀ t ∈ (mrecord ms tid k meta d).threads, ∀ kv ∈ t.2, kv.2 ≠ a) := by
  cases hl : alookup ((alookup ms.threads tid).getD []) k with
  | some a0 =>
    have hmem : (tid, (alookup ms.threads tid).getD []) ∈ ms.threads ∧
        ((k, a0) ∈ (alookup ms.threads tid).getD []) := by
      cases ht : alookup ms.threads tid with
      | none => simp [ht] at hl
      | some tbl0 =>
        simp only [ht, Option.getD_some] at hl ⊢
        exact ⟨mem_of_alookup _ _ _ ht, mem_of_alookup _ _ _ hl⟩
    have ha0 : a0 ≠ a := hnt _ hmem.1 _ hmem.2
    have heq : mrecord ms tid k meta d = { ms with store := store_write ms.store a0 d } := by
      simp [mrecord, hl]
    rw [heq]
    refine ⟨store_write_get_ne ms.store a0 d a ha0, ?_, ?_, hnt⟩
    · intro t ht kv hkv
      rw [show ({ ms with store := store_write ms.store a0 d } : MemState).store.length
          = ms.store.length from store_write_length ms.store a0 d]
      exact hWf t ht kv hkv
    · rw [show ({ ms with store := store_write ms.store a0 d } : MemState).store.length
          = ms.store.length from store_write_length ms.store a0 d]
      exact hlt
  | none =>
    have heq : mrecord ms tid k meta d
        = { store := ms.store ++ [(mkBlock meta.1 meta.2.1 meta.2.2).record_time d]
            threads := aset ms.threads tid
              (aset ((alookup ms.threads tid).getD []) k ms.store.length) } := by
      simp [mrecord, hl]
    rw [heq]
    have htblmem : ∀ kv ∈ (alookup ms.threads tid).getD [], kv.2 ≠ a ∧
        kv.2 < ms.store.length := by
      cases ht : alookup ms.threads tid with
      | none => simp
      | some tbl0 =>
        intro kv hkv
        simp only [Option.getD_some] at hkv
        exact ⟨hnt _ (mem_of_alookup _ _ _ ht) kv hkv,
          hWf _ (mem_of_alookup _ _ _ ht) kv hkv⟩
    refine ⟨?_, ?_, ?_, ?_⟩
    · show (ms.store ++ [(mkBlock meta.1 meta.2.1 meta.2.2).record_time d])[a]?
        = ms.store[a]?
      rw [List.getElem?_append]
      simp [hlt]
    · intro t ht kv hkv
      show kv.2 < (ms.store ++ _).length
      simp only [List.length_append, List.length_cons, List.length_nil]
      rcases mem_aset _ _ _ t ht with hmem | rfl
      · have := hWf t hmem kv hkv
        omega
      · rcases mem_aset _ _ _ kv hkv with hkv2 | rfl
        · have := (htblmem kv hkv2).2
          omega
        · simp
    · simp only [List.length_append, List.length_cons, List.length_nil]
      omega
    · intro t ht kv hkv
      rcases mem_aset _ _ _ t ht with hmem | rfl
      · exact hnt t hmem kv hkv
      · rcases mem_aset _ _ _ kv hkv with hkv2 | rfl
        · exact (htblmem kv hkv2).1
        · show ms.store.length ≠ a
          omega

theorem mrun_frame (cs : List RecCmd) (ms : MemState) (a : Nat) (hWf : WfAddrs ms)
    (hlt : a < ms.store.length)
    (hnt : ∀ t ∈ ms.threads, ∀ kv ∈ t.2, kv.2 ≠ a) :
    (mrun ms cs).store[a]? = ms.store[a]? := by
  induction cs generalizing ms with
  | nil => rfl
  | cons c rest ih =>
    obtain ⟨h1, h2, h3, h4⟩ := mrecord_frame ms c.tid c.key c.meta c.dur a hWf hlt hnt
    have hrun : mrun ms (c :: rest) = mrun (mrecord ms c.tid c.key c.meta c.dur) rest := rfl
    rw [hrun, ih _ h2 h3 h4, h1]

/-- C8: a `Results` snapshot owns new, independent block copies. Aggregation
never mutates the per-thread source data (existing cells and thread tables are
untouched), the snapshot's cells initially hold exactly the merged copies, and
any later recording through the live per-thread blocks leaves every cell of a
previously returned snapshot unchanged. -/
theorem C8_snapshot_blocks_independent :
    (∀ (ms : MemState) (blocks : List ProfileBlock) (a : Nat), a < ms.store.length →
      ((msnapshot ms blocks).2).store[a]? = ms.store[a]?) ∧
    (∀ (ms : MemState) (blocks : List ProfileBlock),
      ((msnapshot ms blocks).2).threads = ms.threads) ∧
    (∀ (ms : MemState) (blocks : List ProfileBlock) (i : Nat),
      ((msnapshot ms blocks).2).store[ms.store.length + i]? = blocks[i]?) ∧
    (∀ (ms : MemState) (blocks : List ProfileBlock) (cs : List RecCmd) (a : Nat),
      WfAddrs ms → a ∈ (msnapshot ms blocks).1 →
      (mrun ((msnapshot ms blocks).2) cs).store[a]?
        = ((msnapshot ms blocks).2).store[a]?) := by
  refine ⟨?_, fun ms blocks => rfl, ?_, ?_⟩
  · intro ms blocks a hlt
    show (ms.store ++ blocks)[a]? = ms.store[a]?
    rw [List.getElem?_append]
    simp [hlt]
  · intro ms blocks i
    show (ms.store ++ blocks)[ms.store.length + i]? = blocks[i]?
    rw [List.getElem?_append]
    simp
  · intro ms blocks cs a hWf hmem
    have hbound : ms.store.length ≤ a ∧ a < ms.store.length + blocks.length := by
      simp only [msnapshot, List.mem_map, List.mem_range] at hmem
      obtain ⟨i, hi, rfl⟩ := hmem
      omega
    refine mrun_frame cs _ a ?_ ?_ ?_
    · intro t ht kv hkv
      show kv.2 < (ms.store ++ blocks).length
      have := hWf t ht kv hkv
      simp only [List.length_append]
      omega
    · show a < (ms.store ++ blocks).length
      simp only [List.length_append]
      omega
    · intro t ht kv hkv
      have := hWf t ht kv hkv
      omega

/-- C8 witness. -/
theorem C8_snapshot_blocks_independent_witness :
    (WfAddrs ⟨[⟨"x", "f.py", 1, 1, 5, 5, 5⟩], [(7, [((0, 0), 0)])]⟩ ∧
      1 ∈ (msnapshot ⟨[⟨"x", "f.py", 1, 1, 5, 5, 5⟩], [(7, [((0, 0), 0)])]⟩
        [⟨"x", "f.py", 1, 2, 9, 4, 5⟩]).1) ∧
    (mrun ((msnapshot ⟨[⟨"x", "f.py", 1, 1, 5, 5, 5⟩], [(7, [((0, 0), 0)])]⟩
        [⟨"x", "f.py", 1, 2, 9, 4, 5⟩]).2) [⟨7, (0, 0), ("x", "f.py", 1), 3⟩]).store[1]?
      = ((msnapshot ⟨[⟨"x", "f.py", 1, 1, 5, 5, 5⟩], [(7, [((0, 0), 0)])]⟩
        [⟨"x", "f.py", 1, 2, 9, 4, 5⟩]).2).store[1]? :=
  ⟨⟨by simp [WfAddrs], by decide⟩,
    C8_snapshot_blocks_independent.2.2.2
      ⟨[⟨"x", "f.py", 1, 1, 5, 5, 5⟩], [(7, [((0, 0), 0)])]⟩
      [⟨"x", "f.py", 1, 2, 9, 4, 5⟩] [⟨7, (0, 0), ("x", "f.py", 1), 3⟩] 1
      (by simp [WfAddrs]) (by decide)⟩

end Stichotrope

